import Mathlib

/-
Verification development for the LambdaMOO database reader
(`lambdamoo_db/reader.py`).  The reader is shallowly embedded below:
the line cursor becomes an explicit state (list of remaining line
contents plus the 1-based line counter), each reader method becomes a
function `St → Except Err (α × St)`, and Python runtime behaviour
(dict insertion, list indexing, truthiness, int() parsing, exception
kinds) is modelled explicitly.
-/

namespace LMDb

/-- Exceptions that the Python code can raise.  `parseError` is
`Reader.parse_error` (an `Exception` carrying the message and the
current line number); the other constructors are builtin Python
exceptions raised by the runtime: `valueError` from `int()`/`float()`
on bad literals, `typeError` e.g. from hashing an unhashable dict key
or from calling the non-callable `NotImplemented` constant,
`indexError` from out-of-range list indexing, `attributeError` from
attribute access on an object lacking it (e.g. `None.group`, or the
missing `Reader.readAnon` method), `assertionError` from a failed
`assert`.  `nonTermination` denotes the infinite loop `readCode` runs
into at end of input (Python `readline` returns an empty string at EOF
forever, so the `"."` terminator never arrives).  `fuelOut` is an
artifact of the fuel parameter used to make the recursive tagged-value
decoder total; any fuel larger than the nesting depth of the input
avoids it. -/
inductive Err where
  | parseError (msg : String) (line : Nat)
  | valueError
  | typeError (msg : String)
  | indexError
  | attributeError
  | assertionError
  | nonTermination
  | fuelOut
deriving Repr, DecidableEq

/-- Cursor state: the remaining lines of the file (line-terminator
already split off, matching `readline().rstrip("\r\n")` under text
mode universal-newline translation) and the value of `self.line`. -/
structure St where
  lines : List String
  lineNo : Nat
deriving Repr, DecidableEq

/-- Python runtime values produced by `Reader.readValue`: `none` is
Python `None` (produced by both the CLEAR and the NONE tag), `int`
covers ints from INT/OBJ/ERR tags, `float` keeps the literal text of
the line (the numeric value of a Python float is not needed by any
claim, so the literal is kept verbatim), `str`, `bool`, `list` and
`dict` (insertion-ordered pair list, as in CPython). -/
inductive PyValue where
  | none
  | int (n : Int)
  | float (lit : String)
  | str (s : String)
  | bool (b : Bool)
  | list (xs : List PyValue)
  | dict (entries : List (PyValue × PyValue))

mutual

/-- Python `==` on decoded values.  Numeric cross-type equality is
modelled for `bool`/`int` (Python `True == 1`); floats compare by
their literal text and dicts by their ordered entry lists — an
approximation of CPython (where float compares numerically and dict
equality ignores order) that no theorem below exercises, since
unhashable values never become dict keys and no claim compares floats
or dicts. -/
def pyBeq : PyValue → PyValue → Bool
  | .none, .none => true
  | .int a, .int b => a == b
  | .int a, .bool b => a == (if b then (1 : Int) else 0)
  | .bool a, .int b => (if a then (1 : Int) else 0) == b
  | .bool a, .bool b => a == b
  | .str a, .str b => a == b
  | .float a, .float b => a == b
  | .list xs, .list ys => pyBeqList xs ys
  | .dict xs, .dict ys => pyBeqPairs xs ys
  | _, _ => false

/-- Pointwise Python `==` on lists (CPython list equality). -/
def pyBeqList : List PyValue → List PyValue → Bool
  | [], [] => true
  | x :: xs, y :: ys => pyBeq x y && pyBeqList xs ys
  | _, _ => false

/-- Pairwise equality on dict entry lists (see `pyBeq`). -/
def pyBeqPairs : List (PyValue × PyValue) → List (PyValue × PyValue) → Bool
  | [], [] => true
  | (k, v) :: xs, (l, w) :: ys => pyBeq k l && pyBeq v w && pyBeqPairs xs ys
  | _, _ => false

end

/-- Python hashability of decoded values: `list` and `dict` are
unhashable, every other decoded value is hashable. -/
def pyHashable : PyValue → Bool
  | .list _ => false
  | .dict _ => false
  | _ => true

/-- CPython dict assignment `d[k] = v` on an insertion-ordered entry
list: an existing equal key keeps its position and original key
object, a new key is appended. -/
def assocSet : List (PyValue × PyValue) → PyValue → PyValue → List (PyValue × PyValue)
  | [], k, v => [(k, v)]
  | (k0, v0) :: t, k, v =>
      if pyBeq k0 k then (k0, v) :: t else (k0, v0) :: assocSet t k v

/-- Python dict assignment including the hashability check: assigning
with an unhashable key raises `TypeError`. -/
def dictSet (m : List (PyValue × PyValue)) (k v : PyValue) :
    Except Err (List (PyValue × PyValue)) :=
  if pyHashable k then .ok (assocSet m k v) else .error (.typeError "unhashable type")

/-- Python `k in d` on the dict model. -/
def dictHasKey (m : List (PyValue × PyValue)) (k : PyValue) : Bool :=
  m.any fun p => pyBeq p.1 k

/-- Whitespace stripped by Python `int()`/`float()` around a literal. -/
def isPySpace (c : Char) : Bool :=
  c == ' ' || c == '\t' || c == '\n' || c == '\r' || c == '\x0b' || c == '\x0c'

/-- Strip leading and trailing whitespace from a character list. -/
def trimEnds (cs : List Char) : List Char :=
  ((cs.dropWhile isPySpace).reverse.dropWhile isPySpace).reverse

/-- Numeric value of a decimal digit character. -/
def digitVal (c : Char) : Nat := c.toNat - 48

/-- Value of a decimal digit string (most significant digit first). -/
def digsToNat (ds : List Char) : Nat :=
  ds.foldl (fun a c => a * 10 + digitVal c) 0

/-- Python `int(s)` on a decimal literal: strip whitespace, optional
sign, then a non-empty digit run; anything else raises `ValueError`.
(CPython additionally allows underscores between digits; no input in
this development contains them.) -/
def pyIntChars (cs : List Char) : Except Err Int :=
  match trimEnds cs with
  | [] => .error .valueError
  | c :: ds =>
      if c = '-' then
        if !ds.isEmpty && ds.all Char.isDigit then .ok (-(digsToNat ds : Int))
        else .error .valueError
      else if c = '+' then
        if !ds.isEmpty && ds.all Char.isDigit then .ok (digsToNat ds : Int)
        else .error .valueError
      else
        if (c :: ds).all Char.isDigit then .ok (digsToNat (c :: ds) : Int)
        else .error .valueError

/-- Python `int(s)` on the string read from a line. -/
def pyInt (s : String) : Except Err Int := pyIntChars s.data

/-- Syntactic validity of a Python `float()` literal, restricted to
the sign/digits/point/exponent form (CPython also accepts inf/nan
spellings and underscores; no claim exercises `readFloat`, so this
approximation is never load-bearing). -/
def pyFloatOk (cs : List Char) : Bool :=
  let cs := trimEnds cs
  let cs := match cs with
    | '-' :: t => t
    | '+' :: t => t
    | t => t
  let intPart := cs.takeWhile Char.isDigit
  let rest := cs.drop intPart.length
  let (fracOk, rest) := match rest with
    | '.' :: t =>
        let frac := t.takeWhile Char.isDigit
        (!intPart.isEmpty || !frac.isEmpty, t.drop frac.length)
    | t => (!intPart.isEmpty, t)
  let expOk := match rest with
    | [] => true
    | 'e' :: t | 'E' :: t =>
        let t := match t with
          | '-' :: u => u
          | '+' :: u => u
          | u => u
        !t.isEmpty && t.all Char.isDigit
    | _ => false
  fracOk && expOk

/-- Does `hay` start with `needle`? -/
def startsSeq : List Char → List Char → Bool
  | [], _ => true
  | _ :: _, [] => false
  | c :: cs, h :: hs => c == h && startsSeq cs hs

/-- Python substring containment `needle in hay`. -/
def hasSub (needle : List Char) : List Char → Bool
  | [] => startsSeq needle []
  | h :: hs => startsSeq needle (h :: hs) || hasSub needle hs

/-- Inner loop of `splitFirstColon`. -/
def splitFirstColonAux (acc : List Char) : List Char → Option (List Char × List Char)
  | [] => none
  | c :: cs => if c = ':' then some (acc.reverse, cs) else splitFirstColonAux (c :: acc) cs

/-- Split a line at its first colon, as `verbLocation.index(":")` does
after the `":" in verbLocation` membership test: `none` when no colon
occurs, otherwise the characters strictly before and strictly after
the first colon. -/
def splitFirstColon (cs : List Char) : Option (List Char × List Char) :=
  splitFirstColonAux [] cs

/-- Drop a literal off the front of a character list, or fail. -/
def dropLit : List Char → List Char → Option (List Char)
  | [], cs => some cs
  | _ :: _, [] => none
  | l :: ls, c :: cs => if l = c then dropLit ls cs else none

/-- Matcher for the count-header regexes `(?P<count>\d+)<literal>`
(`varCountRe`, `clockCountRe`, `taskCountRe`, `pendingValueRe`,
`suspendedTaskCountRe`, `interruptedTaskCountRe`, `connectionCountRe`,
each with its own literal tail such as `" variables"`).  `re.match`
anchors at the start only, so trailing content after the literal is
accepted; the greedy `\d+` takes the maximal digit run, and since no
literal starts with a digit no backtracking case arises. -/
def matchCountLit (lit : List Char) (cs : List Char) : Option Nat :=
  let ds := cs.takeWhile Char.isDigit
  if ds.isEmpty then none
  else match dropLit lit (cs.drop ds.length) with
    | some _ => some (digsToNat ds)
    | none => none

/-- Matcher for `versionRe`, the pattern
`\*\* LambdaMOO Database, Format Version (?P<version>\d+) \*\*`:
returns the digits of the `version` group. -/
def matchVersion (cs : List Char) : Option (List Char) :=
  match dropLit "** LambdaMOO Database, Format Version ".data cs with
  | none => none
  | some rest =>
      let ds := rest.takeWhile Char.isDigit
      if ds.isEmpty then none
      else match dropLit " **".data (rest.drop ds.length) with
        | some _ => some ds
        | none => none

/-- Scan one `\d+` field (no sign). -/
def digitField (cs : List Char) : Option (List Char × List Char) :=
  let ds := cs.takeWhile Char.isDigit
  if ds.isEmpty then none else some (ds, cs.drop ds.length)

/-- Scan one `-?\d+` field: the optional sign is consumed greedily and
the digits are returned without it (the capture groups of
`activationHeaderRe` enclose only `\d+`, so a sign never reaches
`int()` in `readActivation`). -/
def signedField (cs : List Char) : Option (List Char × List Char) :=
  match cs with
  | [] => digitField []
  | c :: t => if c = '-' then digitField t else digitField (c :: t)

/-- Scan `k` space-separated fields using the field scanner `one`;
after the last field nothing further is required (`re.match` is a
prefix match).  Shorter digit runs need no backtracking: a run ends
only at a non-digit, which can never satisfy a following `\d`. -/
def fieldsScan (one : List Char → Option (List Char × List Char)) :
    Nat → List Char → Option (List (List Char) × List Char)
  | 0, cs => some ([], cs)
  | k + 1, cs =>
      match one cs with
      | none => none
      | some (d, rest) =>
          if k = 0 then some ([d], rest)
          else match rest with
            | ' ' :: rest2 =>
                match fieldsScan one k rest2 with
                | none => none
                | some (ds, r) => some (d :: ds, r)
            | _ => none

/-- Matcher for `taskHeaderRe` = `\d+ (\d+) (\d+) (\d+)`: four plain
numeric fields, the digits of groups 1-3 (fields 2-4) returned. -/
def matchTaskHeader (cs : List Char) : Option (List Char × List Char × List Char) :=
  match fieldsScan digitField 4 cs with
  | some ([_, g1, g2, g3], _) => some (g1, g2, g3)
  | _ => none

/-- Matcher for `activationHeaderRe` =
`-?(\d+) -?\d+ -?\d+ -?(\d+) -?\d+ -?(\d+) -?(\d+) -?\d+ -?(\d+)`:
NINE signed numeric fields, with capture groups around the digits of
fields 1, 4, 6, 7 and 9. -/
def matchActivationHeader (cs : List Char) :
    Option (List Char × List Char × List Char × List Char × List Char) :=
  match fieldsScan signedField 9 cs with
  | some ([f1, _, _, f4, _, f6, f7, _, f9], _) => some (f1, f4, f6, f7, f9)
  | _ => none

/-- Matcher for `suspendedTaskHeaderRe` =
`(?P<startTime>\d+) (?P<id>\d+)(?P<endchar>\n| )(?P<value>|.+\n)`:
returns (startTime digits, id digits, endchar, value).  The input
comes from `readString`, which has already stripped the trailing
newline, so the `\n` alternative of `endchar` can only match an
embedded newline (never present in a read line) and the `value` group
always takes its first, empty alternative — the pattern ends after the
group, so `re` never needs the `.+\n` branch. -/
def matchSuspendedHeader (cs : List Char) :
    Option (List Char × List Char × Char × List Char) :=
  match digitField cs with
  | none => none
  | some (d1, rest) =>
      match rest with
      | ' ' :: rest2 =>
          match digitField rest2 with
          | none => none
          | some (d2, rest3) =>
              match rest3 with
              | '\n' :: _ => some (d1, d2, '\n', [])
              | ' ' :: _ => some (d1, d2, ' ', [])
              | _ => none
      | _ => none

/-- Matcher for `interruptedTaskHeaderRe` =
`(?P<id>) interrupted reading task`: the `id` group is empty, so the
line must literally begin with a space followed by
`interrupted reading task` — a real dump line such as
`"0 interrupted reading task"` does NOT match. -/
def matchInterruptedHeader (cs : List Char) : Bool :=
  startsSeq " interrupted reading task".data cs

/-- Modelled from the spec: the value-type tag constants come from
`lambdamoo_db/enums.py` (`MooTypes`), which is not under `src/`.  The
spec (section 6) fixes them as the canonical constants of the
reference LambdaMOO/ToastStunt on-disk format, which assigns INT=0,
OBJ=1, STR=2, ERR=3, LIST=4, CLEAR=5, NONE=6, FLOAT=9, MAP=10,
ANON=12, BOOL=14.  No claim depends on the particular numbers, only on
their distinctness. -/
def MooTypes.INT : Int := 0

/-- Modelled from the spec: see `MooTypes.INT`. -/
def MooTypes.OBJ : Int := 1

/-- Modelled from the spec: see `MooTypes.INT`. -/
def MooTypes.STR : Int := 2

/-- Modelled from the spec: see `MooTypes.INT`. -/
def MooTypes.ERR : Int := 3

/-- Modelled from the spec: see `MooTypes.INT`. -/
def MooTypes.LIST : Int := 4

/-- Modelled from the spec: see `MooTypes.INT`. -/
def MooTypes.CLEAR : Int := 5

/-- Modelled from the spec: see `MooTypes.INT`. -/
def MooTypes.NONE : Int := 6

/-- Modelled from the spec: see `MooTypes.INT`. -/
def MooTypes.FLOAT : Int := 9

/-- Modelled from the spec: see `MooTypes.INT`. -/
def MooTypes.MAP : Int := 10

/-- Modelled from the spec: see `MooTypes.INT`. -/
def MooTypes.ANON : Int := 12

/-- Modelled from the spec: see `MooTypes.INT`. -/
def MooTypes.BOOL : Int := 14

/-- Modelled from the spec: the version-threshold constants come from
`lambdamoo_db/enums.py` (`DBVersions`), not under `src/`.  The spec
describes them as successive next-gen thresholds gating optional
fields; the canonical reference-format enumeration places DBV_This=11,
DBV_Anon=12, DBV_Last_Move=14, DBV_Threaded=15.  Only their position
relative to the two accepted versions 4 and 17 matters (every
threshold is above 4 and at most 17), which these values satisfy. -/
def DBVersions.DBV_This : Int := 11

/-- Modelled from the spec: see `DBVersions.DBV_This`. -/
def DBVersions.DBV_Anon : Int := 12

/-- Modelled from the spec: see `DBVersions.DBV_This`. -/
def DBVersions.DBV_Last_Move : Int := 14

/-- Modelled from the spec: see `DBVersions.DBV_This`. -/
def DBVersions.DBV_Threaded : Int := 15

/-- Verb metadata (dataclass from `lambdamoo_db/database.py`, not
under `src/`).  Modelled from the spec: name, owner reference,
permission bits, preposition code, and a code body that is initially
absent and attached later by the verb-code decoder. -/
structure Verb where
  name : String
  owner : Int
  perms : Int
  preps : Int
  code : Option (List String) := Option.none

/-- Property (dataclass from `lambdamoo_db/database.py`).  Modelled
from the spec: optional name, decoded value, owner reference,
permission bits. -/
structure Property where
  name : Option String
  value : PyValue
  owner : Int
  perms : Int

/-- An object (constructed as `MooObject(oid, name, flags, owner,
location, parent)` with empty verb and property lists).  Modelled from
the spec: the v4 decoder stores single integer references in
`location`/`parent`, the next-gen decoder stores arbitrary decoded
values there, so both fields are `PyValue`. -/
structure MooObject where
  id : Int
  name : String
  flags : Int
  owner : Int
  location : PyValue
  parent : PyValue
  verbs : List Verb := []
  properties : List Property := []

/-- One captured call-stack frame (dataclass `Activation`).  Modelled
from the spec: `this` reference (field `thisv` here, since `this` is
reserved in Lean), player, programmer, verb location reference, debug
flag, verb location string and verb name. -/
structure Activation where
  thisv : Int
  player : Int
  programmer : Int
  vloc : Int
  debug : Bool
  verb : String
  verbname : String

/-- A scheduler task (constructed as `QueuedTask(firstLineno, id,
st)`).  Modelled from the spec: line number, id, scheduling timestamp,
then optionally an activation, a runtime environment, a code body and
a terminal value, each absent until assigned. -/
structure QueuedTask where
  firstLineno : Int
  id : Int
  st : Int
  activation : Option Activation := Option.none
  rtEnv : Option (List (String × PyValue)) := Option.none
  code : Option (List String) := Option.none
  value : Option PyValue := Option.none

/-- The decoded database (`MooDatabase()` then field assignments).
Modelled from the spec: version tag and raw version string, count
headers, player list, id-keyed object mapping (a CPython dict with
integer keys, modelled as an insertion-ordered association list) and
the queued-task list. -/
structure MooDatabase where
  version : Int := 0
  versionstring : String := ""
  total_objects : Int := 0
  total_verbs : Int := 0
  total_players : Int := 0
  players : List Int := []
  objects : List (Int × MooObject) := []
  queuedTasks : List QueuedTask := []

/-- `db.objects.get(k)` on the integer-keyed dict model. -/
def dictGetInt (m : List (Int × MooObject)) (k : Int) : Option MooObject :=
  match m with
  | [] => Option.none
  | (k0, v0) :: t => if k0 = k then some v0 else dictGetInt t k

/-- `db.objects[k] = v` on the integer-keyed dict model: an existing
key keeps its position, a new key is appended. -/
def dictSetInt (m : List (Int × MooObject)) (k : Int) (v : MooObject) :
    List (Int × MooObject) :=
  match m with
  | [] => [(k, v)]
  | (k0, v0) :: t => if k0 = k then (k0, v) :: t else (k0, v0) :: dictSetInt t k v

/-- `rtEnv[name] = value` on the string-keyed dict model (duplicate
names: last write wins, position of the first insertion kept). -/
def strDictSet (m : List (String × PyValue)) (k : String) (v : PyValue) :
    List (String × PyValue) :=
  match m with
  | [] => [(k, v)]
  | (k0, v0) :: t => if k0 = k then (k0, v) :: t else (k0, v0) :: strDictSet t k v

/-- `self.readString()`: advance the line counter, return the next
line with its terminator stripped; at end of input Python `readline`
keeps returning the empty string (the counter still advances). -/
def readString (st : St) : String × St :=
  match st.lines with
  | [] => ("", { st with lineNo := st.lineNo + 1 })
  | l :: ls => (l, ⟨ls, st.lineNo + 1⟩)

/-- `self.parse_error(msg)`: raise with the current line number. -/
def perr {α : Type} (msg : String) (st : St) : Except Err (α × St) :=
  .error (.parseError msg st.lineNo)

/-- `self.readInt()` = `int(self.readString())`. -/
def readInt (st : St) : Except Err (Int × St) :=
  let (s, st) := readString st
  match pyInt s with
  | .ok n => .ok (n, st)
  | .error e => .error e

/-- `self.readErr()` = `self.readInt()`. -/
def readErr (st : St) : Except Err (Int × St) := readInt st

/-- `self.readObjnum()` = `self.readInt()`. -/
def readObjnum (st : St) : Except Err (Int × St) := readInt st

/-- `self.readFloat()` = `float(self.readString())`; the float keeps
its literal text (see `PyValue.float`). -/
def readFloat (st : St) : Except Err (PyValue × St) :=
  let (s, st) := readString st
  if pyFloatOk s.data then .ok (.float s, st) else .error .valueError

/-- `self.readBool()` = `bool(self.readString())`: a line is true
exactly when it is non-empty. -/
def readBool (st : St) : Bool × St :=
  let (s, st) := readString st
  (s != "", st)

/-- `self.readCode()`: collect lines until a line equal to `"."`,
which is consumed but not stored.  If the input ends first, the Python
loop never terminates (`readline` returns `""` forever); that
divergence is denoted by the `nonTermination` error. -/
def readCodeAux : List String → Nat → Except Err (List String × St)
  | [], _ => .error .nonTermination
  | l :: ls, n =>
      if l = "." then .ok ([], ⟨ls, n + 1⟩)
      else match readCodeAux ls (n + 1) with
        | .ok (code, st) => .ok (l :: code, st)
        | .error e => .error e

/-- `self.readCode()` on the cursor state (see `readCodeAux`). -/
def readCode (st : St) : Except Err (List String × St) :=
  readCodeAux st.lines st.lineNo

mutual

/-- `self.readValue()`: read a type-tag line and dispatch, in the
source order of the `match` arms (STR, OBJ, ANON, INT, FLOAT, ERR,
LIST, CLEAR, NONE, MAP, BOOL, unknown).  The ANON arm calls
`self.readAnon()`, a method the `Reader` class does not define, so it
raises `AttributeError`; CLEAR and NONE fall through and return Python
`None`.  The `fuel` argument only bounds the list/map recursion depth
and decreases on every recursive call; any fuel above the total input
length is enough (each recursion level first consumes at least one
line). -/
def readValue : Nat → St → Except Err (PyValue × St)
  | 0, _ => .error .fuelOut
  | f + 1, st =>
      match readInt st with
      | .error e => .error e
      | .ok (val_type, st) =>
          if val_type = MooTypes.STR then
            let (s, st) := readString st
            .ok (.str s, st)
          else if val_type = MooTypes.OBJ then
            match readObjnum st with
            | .ok (n, st) => .ok (.int n, st)
            | .error e => .error e
          else if val_type = MooTypes.ANON then
            .error .attributeError
          else if val_type = MooTypes.INT then
            match readInt st with
            | .ok (n, st) => .ok (.int n, st)
            | .error e => .error e
          else if val_type = MooTypes.FLOAT then
            readFloat st
          else if val_type = MooTypes.ERR then
            match readErr st with
            | .ok (n, st) => .ok (.int n, st)
            | .error e => .error e
          else if val_type = MooTypes.LIST then
            readList f st
          else if val_type = MooTypes.CLEAR then
            .ok (.none, st)
          else if val_type = MooTypes.NONE then
            .ok (.none, st)
          else if val_type = MooTypes.MAP then
            readMap f st
          else if val_type = MooTypes.BOOL then
            let (b, st) := readBool st
            .ok (.bool b, st)
          else
            perr (s!"unknown type {val_type}") st

/-- `self.readList()`: a count line, then that many values in order
(`range` of a negative count is empty, hence `Int.toNat`). -/
def readList : Nat → St → Except Err (PyValue × St)
  | 0, _ => .error .fuelOut
  | f + 1, st =>
      match readInt st with
      | .error e => .error e
      | .ok (length, st) =>
          match readListItems f length.toNat st with
          | .ok (xs, st) => .ok (.list xs, st)
          | .error e => .error e

/-- The `for _ in range(length)` loop of `readList`. -/
def readListItems : Nat → Nat → St → Except Err (List PyValue × St)
  | 0, _, _ => .error .fuelOut
  | _ + 1, 0, st => .ok ([], st)
  | f + 1, n + 1, st =>
      match readValue f st with
      | .error e => .error e
      | .ok (v, st) =>
          match readListItems f n st with
          | .ok (vs, st) => .ok (v :: vs, st)
          | .error e => .error e

/-- `self.readMap()`: a count line, then that many key/value pairs
inserted into a dict. -/
def readMap : Nat → St → Except Err (PyValue × St)
  | 0, _ => .error .fuelOut
  | f + 1, st =>
      match readInt st with
      | .error e => .error e
      | .ok (items, st) =>
          match readMapItems f items.toNat [] st with
          | .ok (m, st) => .ok (.dict m, st)
          | .error e => .error e

/-- The `for _ in range(items)` loop of `readMap`: decode a key, a
value, then `map[key] = val` (which raises `TypeError` on an
unhashable key). -/
def readMapItems : Nat → Nat → List (PyValue × PyValue) → St →
    Except Err (List (PyValue × PyValue) × St)
  | 0, _, _, _ => .error .fuelOut
  | _ + 1, 0, m, st => .ok (m, st)
  | f + 1, n + 1, m, st =>
      match readValue f st with
      | .error e => .error e
      | .ok (key, st) =>
          match readValue f st with
          | .error e => .error e
          | .ok (val, st) =>
              match dictSet m key val with
              | .error e => .error e
              | .ok m2 => readMapItems f n m2 st

end

/-- Python list indexing `xs[i]`: a negative index counts from the
end; an index out of range after that adjustment raises `IndexError`.
The position actually accessed is also returned, because the caller
(`readVerb`) mutates the selected element in place. -/
def pyIndex {α : Type} (xs : List α) (i : Int) : Except Err (α × Nat) :=
  let j : Int := if i < 0 then i + xs.length else i
  if h : 0 ≤ j ∧ j < xs.length then
    .ok (xs.get ⟨j.toNat, by omega⟩, j.toNat)
  else .error .indexError

/-- `self.readVerbMetadata(obj)`: name, owner, perms, preps; the verb
is appended to the object's verb list. -/
def readVerbMetadata (obj : MooObject) (st : St) : Except Err (MooObject × St) := do
  let (name, st) := readString st
  let (owner, st) ← readObjnum st
  let (perms, st) ← readInt st
  let (preps, st) ← readInt st
  .ok ({ obj with verbs := obj.verbs ++ [⟨name, owner, perms, preps, Option.none⟩] }, st)

/-- The `for _ in range(numVerbs)` loop around `readVerbMetadata`. -/
def verbMetaLoop : Nat → MooObject → St → Except Err (MooObject × St)
  | 0, obj, st => .ok (obj, st)
  | k + 1, obj, st => do
      let (obj, st) ← readVerbMetadata obj st
      verbMetaLoop k obj st

/-- The `for _ in range(numProperties)` name-collecting loop of
`readProperties` (`readString` is total, so this is too). -/
def propNamesLoop : Nat → St → List String × St
  | 0, st => ([], st)
  | k + 1, st =>
      let (s, st) := readString st
      let (rest, st2) := propNamesLoop k st
      (s :: rest, st2)

/-- The `for _ in range(numPropdefs)` loop of `readProperties`: pop a
name off the queue if any remain (else the property has no name), then
decode value, owner and permission bits in that order. -/
def propDefsLoop (f : Nat) : Nat → List String → MooObject → St →
    Except Err (MooObject × St)
  | 0, _, obj, st => .ok (obj, st)
  | k + 1, ns, obj, st => do
      let propertyName := ns.head?
      let (value, st) ← readValue f st
      let (owner, st) ← readObjnum st
      let (perms, st) ← readInt st
      propDefsLoop f k ns.tail
        { obj with properties := obj.properties ++ [⟨propertyName, value, owner, perms⟩] } st

/-- `self.readProperties(obj)`: a count of declared names, the names,
a count of definitions, then the definitions. -/
def readProperties (f : Nat) (obj : MooObject) (st : St) : Except Err (MooObject × St) := do
  let (numProperties, st) ← readInt st
  let (propertyNames, st) := propNamesLoop numProperties.toNat st
  let (numPropdefs, st) ← readInt st
  propDefsLoop f numPropdefs.toNat propertyNames obj st

/-- `self.readObject_v4(db)`: `#<id>` line (a line containing
`recycled` yields `None` with nothing further read), name, discarded
blank line, flags, owner, location, two discarded linked-list fields,
parent, two more discarded linked-list fields, verb metadata and the
property section. -/
def readObject_v4 (f : Nat) (st : St) : Except Err (Option MooObject × St) := do
  let (objNumber, st) := readString st
  if !startsSeq ['#'] objNumber.data then perr "object number does not have #" st
  else if hasSub "recycled".data objNumber.data then .ok (Option.none, st)
  else do
    let oid ← pyIntChars (objNumber.data.drop 1)
    let (name, st) := readString st
    let (_blank, st) := readString st
    let (flags, st) ← readInt st
    let (owner, st) ← readObjnum st
    let (location, st) ← readObjnum st
    let (_firstContent, st) ← readInt st
    let (_neighbor, st) ← readInt st
    let (parent, st) ← readObjnum st
    let (_firstChild, st) ← readInt st
    let (_sibling, st) ← readInt st
    let obj : MooObject := ⟨oid, name, flags, owner, .int location, .int parent, [], []⟩
    let (numVerbs, st) ← readInt st
    let (obj, st) ← verbMetaLoop numVerbs.toNat obj st
    let (obj, st) ← readProperties f obj st
    .ok (some obj, st)

/-- `self.readObject_ng(db)`: next-gen object record; location,
last-move (version-gated), contents, parents and children are decoded
values, and `parents` takes the constructor slot v4 uses for the
single parent. -/
def readObject_ng (f : Nat) (version : Int) (st : St) : Except Err (Option MooObject × St) := do
  let (objNumber, st) := readString st
  if !startsSeq ['#'] objNumber.data then perr "object number does not have #" st
  else if hasSub "recycled".data objNumber.data then .ok (Option.none, st)
  else do
    let oid ← pyIntChars (objNumber.data.drop 1)
    let (name, st) := readString st
    let (flags, st) ← readInt st
    let (owner, st) ← readObjnum st
    let (location, st) ← readValue f st
    let st ← (if version ≥ DBVersions.DBV_Last_Move then do
        let (_last_move, st) ← readValue f st
        pure st
      else pure st)
    let (_contents, st) ← readValue f st
    let (parents, st) ← readValue f st
    let (_children, st) ← readValue f st
    let obj : MooObject := ⟨oid, name, flags, owner, location, parents, [], []⟩
    let (numVerbs, st) ← readInt st
    let (obj, st) ← verbMetaLoop numVerbs.toNat obj st
    let (obj, st) ← readProperties f obj st
    .ok (some obj, st)

/-- The `for _ in range(db.total_objects)` loop of `readObjects`:
decode an object with the schema selected by the version, skip
recycled entries, store the rest under their id. -/
def objLoop (f : Nat) : Nat → MooDatabase → St → Except Err (MooDatabase × St)
  | 0, db, st => .ok (db, st)
  | k + 1, db, st => do
      let (obj?, st) ←
        (if db.version = 4 then readObject_v4 f st else readObject_ng f db.version st)
      match obj? with
      | Option.none => objLoop f k db st
      | some obj => objLoop f k { db with objects := dictSetInt db.objects obj.id obj } st

/-- `self.readObjects(db)`: reset `db.objects` to an empty dict, then
run the object loop `db.total_objects` times. -/
def readObjects (f : Nat) (db : MooDatabase) (st : St) : Except Err (MooDatabase × St) :=
  objLoop f db.total_objects.toNat { db with objects := [] } st

/-- `self.readVerb(db)`: a `#<objectId>:<verbIndex>` line split at its
first colon, the terminated code block, then resolution of the object
(a missing id is a parse error) and of the verb by Python list
indexing — where a negative index counts from the end and an
out-of-range one raises `IndexError`.  The source's `if not verb:`
guard can never fire (a `Verb` instance is always truthy), so it is
not part of the model. -/
def readVerb (db : MooDatabase) (st : St) : Except Err (MooDatabase × St) := do
  let (verbLocation, st) := readString st
  match splitFirstColon verbLocation.data with
  | Option.none => perr "verb does not have seperator" st
  | some (before, after) => do
      let objNumber ← pyIntChars (before.drop 1)
      let verbNumber ← pyIntChars after
      let (code, st) ← readCode st
      match dictGetInt db.objects objNumber with
      | Option.none => perr (s!"object {objNumber} not found") st
      | some obj => do
          let (verb, j) ← pyIndex obj.verbs verbNumber
          let obj := { obj with verbs := obj.verbs.set j { verb with code := some code } }
          .ok ({ db with objects := dictSetInt db.objects objNumber obj }, st)

/-- The `for _ in range(db.total_verbs)` loop of `readVerbs`. -/
def verbsLoop : Nat → MooDatabase → St → Except Err (MooDatabase × St)
  | 0, db, st => .ok (db, st)
  | k + 1, db, st => do
      let (db, st) ← readVerb db st
      verbsLoop k db st

/-- `self.readVerbs(db)`. -/
def readVerbs (db : MooDatabase) (st : St) : Except Err (MooDatabase × St) :=
  verbsLoop db.total_verbs.toNat db st

/-- The player-collecting loop of `readPlayers`. -/
def playersLoop : Nat → St → Except Err (List Int × St)
  | 0, st => .ok ([], st)
  | k + 1, st => do
      let (p, st) ← readObjnum st
      let (ps, st) ← playersLoop k st
      .ok (p :: ps, st)

/-- `self.readPlayers(db)`: a count, that many object numbers, then
`assert db.total_players == len(db.players)` (which fails for a
negative declared count, since `range` of a negative is empty). -/
def readPlayers (db : MooDatabase) (st : St) : Except Err (MooDatabase × St) := do
  let (total_players, st) ← readInt st
  let (players, st) ← playersLoop total_players.toNat st
  if total_players = (players.length : Int) then
    .ok ({ db with total_players := total_players, players := players }, st)
  else .error .assertionError

/-- A loop reading and discarding `k` lines (`readConnections`,
`readClocks` via `readClock`). -/
def discardLines : Nat → St → St
  | 0, st => st
  | k + 1, st => discardLines k (readString st).2

/-- `self.readConnections()`: count header (the `listener_tag`
alternation accepts the empty tail first, so any suffix matches), then
that many discarded lines. -/
def readConnections (st : St) : Except Err (Unit × St) := do
  let (header, st) := readString st
  match matchCountLit " active connections".data header.data with
  | Option.none => perr "Bad active connections header line" st
  | some count => .ok ((), discardLines count st)

/-- `self.readClocks()`: count header, then that many discarded
obsolete clock lines. -/
def readClocks (st : St) : Except Err (Unit × St) := do
  let (clockLine, st) := readString st
  match matchCountLit " clocks".data clockLine.data with
  | Option.none => perr "Could not find clock definitions" st
  | some numClocks => .ok ((), discardLines numClocks st)

/-- The value-discarding loop of `readPending`. -/
def pendingLoop (f : Nat) : Nat → St → Except Err St
  | 0, st => .ok st
  | k + 1, st => do
      let (_, st) ← readValue f st
      pendingLoop f k st

/-- `self.readPending()`: pending-finalization count header, then that
many discarded values. -/
def readPending (f : Nat) (st : St) : Except Err (Unit × St) := do
  let (valueLine, st) := readString st
  match matchCountLit " values pending finalization".data valueLine.data with
  | Option.none => perr "Bad pending finalizations" st
  | some count => do
      let st ← pendingLoop f count st
      .ok ((), st)

/-- `self.readActivation(db)`: version-gated leading values (an
always-present value, then values gated at DBV_This, DBV_Anon, and a
plain integer at DBV_Threaded), then the activation header line
matched by `activationHeaderRe` (NINE numeric fields; groups capture
the digits of fields 1, 4, 6, 7, 9, so signs are dropped and `debug`
is the truthiness of a non-empty digit string, i.e. always true when
matched), four discarded legacy strings, the verb-location string and
the verb-name string. -/
def readActivation (f : Nat) (db : MooDatabase) (st : St) : Except Err (Activation × St) := do
  let (_, st) ← readValue f st
  let st ← (if db.version ≥ DBVersions.DBV_This then do
      let (_this, st) ← readValue f st
      pure st
    else pure st)
  let st ← (if db.version ≥ DBVersions.DBV_Anon then do
      let (_vloc, st) ← readValue f st
      pure st
    else pure st)
  let st ← (if db.version ≥ DBVersions.DBV_Threaded then do
      let (_threaded, st) ← readInt st
      pure st
    else pure st)
  let (headerLine, st) := readString st
  match matchActivationHeader headerLine.data with
  | Option.none => perr "Could not find activation header" st
  | some (g1, g2, g3, g4, g5) => do
      let thisv ← pyIntChars g1
      let player ← pyIntChars g2
      let programmer ← pyIntChars g3
      let vloc ← pyIntChars g4
      let debug := !g5.isEmpty
      let (_argstr, st) := readString st
      let (_dobjstr, st) := readString st
      let (_prepstr, st) := readString st
      let (_iobjstr, st) := readString st
      let (verb, st) := readString st
      let (verbname, st) := readString st
      .ok (⟨thisv, player, programmer, vloc, debug, verb, verbname⟩, st)

/-- The (name, value) loop of `readRTEnv`. -/
def rtEnvLoop (f : Nat) : Nat → List (String × PyValue) → St →
    Except Err (List (String × PyValue) × St)
  | 0, env, st => .ok (env, st)
  | k + 1, env, st => do
      let (name, st) := readString st
      let (value, st) ← readValue f st
      rtEnvLoop f k (strDictSet env name value) st

/-- `self.readRTEnv()`: `N variables` header, then N (name, value)
pairs assembled into a dict (duplicates: last write wins). -/
def readRTEnv (f : Nat) (st : St) : Except Err (List (String × PyValue) × St) := do
  let (varCountLine, st) := readString st
  match matchCountLit " variables".data varCountLine.data with
  | Option.none => perr "Could not find variable count for RT Env" st
  | some varCount => rtEnvLoop f varCount [] st

/-- `self.readQueuedTask(db)`: numeric header (four fields, the
first ignored: groups give first line number, start time, id), an
activation, a runtime environment, and a terminated code block. -/
def readQueuedTask (f : Nat) (db : MooDatabase) (st : St) : Except Err (MooDatabase × St) := do
  let (headerLine, st) := readString st
  match matchTaskHeader headerLine.data with
  | Option.none => perr "Could not find task header" st
  | some (g1, g2, g3) => do
      let firstLineno ← pyIntChars g1
      let startTime ← pyIntChars g2
      let id ← pyIntChars g3
      let (activation, st) ← readActivation f db st
      let (rtEnv, st) ← readRTEnv f st
      let (code, st) ← readCode st
      let task : QueuedTask :=
        { firstLineno := firstLineno, id := id, st := startTime,
          activation := some activation, rtEnv := some rtEnv, code := some code }
      .ok ({ db with queuedTasks := db.queuedTasks ++ [task] }, st)

/-- The task loop of `readTaskQueue`. -/
def taskLoop (f : Nat) : Nat → MooDatabase → St → Except Err (MooDatabase × St)
  | 0, db, st => .ok (db, st)
  | k + 1, db, st => do
      let (db, st) ← readQueuedTask f db st
      taskLoop f k db st

/-- `self.readTaskQueue(db)`: `N queued tasks` header, reset
`db.queuedTasks`, then N queued tasks. -/
def readTaskQueue (f : Nat) (db : MooDatabase) (st : St) : Except Err (MooDatabase × St) := do
  let (queuedTasksLine, st) := readString st
  match matchCountLit " queued tasks".data queuedTasksLine.data with
  | Option.none => perr "Could not find task queue" st
  | some numTasks => taskLoop f numTasks { db with queuedTasks := [] } st

/-- `self.readSuspendedTask(db)`: header line matched by
`suspendedTaskHeaderRe`; the task's line number is recorded as 0, and
a value would be read only when the `value` group is non-empty — which
never happens, because `readString` already stripped the newline the
group's `.+\n` alternative requires (see `matchSuspendedHeader`). -/
def readSuspendedTask (f : Nat) (db : MooDatabase) (st : St) : Except Err (MooDatabase × St) := do
  let (headerLine, st) := readString st
  match matchSuspendedHeader headerLine.data with
  | Option.none => perr (s!"Bad suspended task header: {headerLine}") st
  | some (d1, d2, _endchar, valueGroup) => do
      let id ← pyIntChars d2
      let startTime ← pyIntChars d1
      let task : QueuedTask := { firstLineno := 0, id := id, st := startTime }
      if valueGroup.isEmpty then
        .ok ({ db with queuedTasks := db.queuedTasks ++ [task] }, st)
      else do
        let (v, st) ← readValue f st
        .ok ({ db with queuedTasks := db.queuedTasks ++ [{ task with value := some v }] }, st)

/-- The task loop of `readSuspendedTasks`. -/
def suspendedLoop (f : Nat) : Nat → MooDatabase → St → Except Err (MooDatabase × St)
  | 0, db, st => .ok (db, st)
  | k + 1, db, st => do
      let (db, st) ← readSuspendedTask f db st
      suspendedLoop f k db st

/-- `self.readSuspendedTasks(db)`. -/
def readSuspendedTasks (f : Nat) (db : MooDatabase) (st : St) : Except Err (MooDatabase × St) := do
  let (valueLine, st) := readString st
  match matchCountLit " suspended tasks".data valueLine.data with
  | Option.none => perr "Bad suspended tasks header" st
  | some count => suspendedLoop f count db st

/-- `self.readInterruptedTask(db)`: read the per-task header line; if
it fails `interruptedTaskHeaderRe` the decoder raises its parse error,
otherwise the statement `raise NotImplemented()` executes — and
calling the non-callable `NotImplemented` constant raises a plain
`TypeError`, not a deliberate unsupported-feature error. -/
def readInterruptedTask (st : St) : Except Err (MooDatabase × St) := do
  let (header, st) := readString st
  if matchInterruptedHeader header.data then
    .error (.typeError "NotImplementedType object is not callable")
  else perr "Bad interrupted tasks header" st

/-- The task loop of `readInterruptedTasks` (the body fails on its
first iteration whenever it runs). -/
def interruptedLoop : Nat → MooDatabase → St → Except Err (MooDatabase × St)
  | 0, db, st => .ok (db, st)
  | k + 1, _, st => do
      let (db, st) ← readInterruptedTask st
      interruptedLoop k db st

/-- `self.readInterruptedTasks(db)`: count header (whose failure
message is a copy-paste of the suspended-tasks one in the source),
then the per-task loop. -/
def readInterruptedTasks (db : MooDatabase) (st : St) : Except Err (MooDatabase × St) := do
  let (valueLine, st) := readString st
  match matchCountLit " interrupted tasks".data valueLine.data with
  | Option.none => perr "Bad suspended tasks header" st
  | some count => interruptedLoop count db st

/-- `self.parse_v4(db)`: total objects, total verbs, a discarded dummy
line, players, objects, verbs, clocks, queued tasks. -/
def parse_v4 (f : Nat) (db : MooDatabase) (st : St) : Except Err (MooDatabase × St) := do
  let (total_objects, st) ← readInt st
  let (total_verbs, st) ← readInt st
  let (_dummy, st) := readString st
  let db := { db with total_objects := total_objects, total_verbs := total_verbs }
  let (db, st) ← readPlayers db st
  let (db, st) ← readObjects f db st
  let (db, st) ← readVerbs db st
  let (_, st) ← readClocks st
  readTaskQueue f db st

/-- `self.parse_v17(db)`: players, pending finalizations, clocks,
queued tasks, suspended tasks, interrupted tasks, connections, total
objects, objects, total verbs, verbs. -/
def parse_v17 (f : Nat) (db : MooDatabase) (st : St) : Except Err (MooDatabase × St) := do
  let (db, st) ← readPlayers db st
  let (_, st) ← readPending f st
  let (_, st) ← readClocks st
  let (db, st) ← readTaskQueue f db st
  let (db, st) ← readSuspendedTasks f db st
  let (db, st) ← readInterruptedTasks db st
  let (_, st) ← readConnections st
  let (total_objects, st) ← readInt st
  let db := { db with total_objects := total_objects }
  let (db, st) ← readObjects f db st
  let (total_verbs, st) ← readInt st
  let db := { db with total_verbs := total_verbs }
  readVerbs db st

/-- `self.parse()`: read the version line, extract the version number
with `versionRe` (a non-matching line makes `.group` an attribute
access on `None`, an `AttributeError`), then dispatch: version 4 to
the legacy sequence, version 17 to the next-gen sequence, anything
else to the `Unknown db version` parse error. -/
def parse (f : Nat) (st : St) : Except Err (MooDatabase × St) := do
  let (versionstring, st) := readString st
  match matchVersion versionstring.data with
  | Option.none => .error .attributeError
  | some ds =>
      let version : Int := (digsToNat ds : Nat)
      let db : MooDatabase := { versionstring := versionstring, version := version }
      if version = 4 then parse_v4 f db st
      else if version = 17 then parse_v17 f db st
      else .error (.parseError (s!"Unknown db version {version}") st.lineNo)

/-
Fixture encoders.  The definitions below are NOT part of the reader:
they build well-formed input line lists over which the general
theorems quantify, mirroring the writer side of the on-disk format.
-/

/-- One decimal digit character. -/
def digitChar : Nat → Char
  | 0 => '0'
  | 1 => '1'
  | 2 => '2'
  | 3 => '3'
  | 4 => '4'
  | 5 => '5'
  | 6 => '6'
  | 7 => '7'
  | 8 => '8'
  | _ => '9'

/-- Fueled decimal rendering (most significant digit first); fuel
`n + 1` always suffices. -/
def natDigsF : Nat → Nat → List Char → List Char
  | 0, _, acc => acc
  | f + 1, n, acc =>
      if n < 10 then digitChar n :: acc
      else natDigsF f (n / 10) (digitChar (n % 10) :: acc)

/-- Decimal rendering of a natural number. -/
def natDigs (n : Nat) : List Char := natDigsF (n + 1) n []

/-- Decimal rendering of an integer, sign included. -/
def encIntChars : Int → List Char
  | .ofNat n => natDigs n
  | .negSucc n => '-' :: natDigs (n + 1)

/-- A line holding one encoded integer. -/
def encInt (i : Int) : String := ⟨encIntChars i⟩

lemma digitChar_isDigit {d : Nat} (h : d < 10) : (digitChar d).isDigit = true := by
  interval_cases d <;> decide

lemma digitVal_digitChar {d : Nat} (h : d < 10) : digitVal (digitChar d) = d := by
  interval_cases d <;> decide

lemma isDigit_ne {c d : Char} (h : c.isDigit = true) (hd : d.isDigit = false) : c ≠ d := by
  rintro rfl
  rw [h] at hd
  simp at hd

lemma isEmpty_false_of_ne_nil {α : Type} {l : List α} (h : l ≠ []) : l.isEmpty = false := by
  cases l with
  | nil => exact absurd rfl h
  | cons a t => rfl

lemma isDigit_not_space {c : Char} (h : c.isDigit = true) : isPySpace c = false := by
  have h1 := isDigit_ne h (d := ' ') (by decide)
  have h2 := isDigit_ne h (d := '\t') (by decide)
  have h3 := isDigit_ne h (d := '\n') (by decide)
  have h4 := isDigit_ne h (d := '\r') (by decide)
  have h5 := isDigit_ne h (d := '\x0b') (by decide)
  have h6 := isDigit_ne h (d := '\x0c') (by decide)
  simp [isPySpace, h1, h2, h3, h4, h5, h6]

lemma natDigsF_fuel {n : Nat} : ∀ {f g : Nat} {acc : List Char}, n < f → n < g →
    natDigsF f n acc = natDigsF g n acc := by
  induction n using Nat.strong_induction_on with
  | _ n ih =>
    intro f g acc hf hg
    match f, g with
    | f + 1, g + 1 =>
      by_cases h10 : n < 10
      · simp [natDigsF, h10]
      · have hlt : n / 10 < n := Nat.div_lt_self (by omega) (by omega)
        simp only [natDigsF, if_neg h10]
        exact ih (n / 10) hlt (by omega) (by omega)

lemma natDigsF_append {f : Nat} : ∀ {n : Nat} {acc : List Char}, n < f →
    natDigsF f n acc = natDigsF f n [] ++ acc := by
  induction f with
  | zero => intro n acc h; omega
  | succ f ih =>
    intro n acc h
    by_cases h10 : n < 10
    · simp [natDigsF, h10]
    · have hlt : n / 10 < n := Nat.div_lt_self (by omega) (by omega)
      simp only [natDigsF, if_neg h10]
      rw [ih (by omega), @ih (n / 10) [digitChar (n % 10)] (by omega),
        List.append_assoc]
      simp

lemma natDigs_step {n : Nat} (h : ¬n < 10) :
    natDigs n = natDigs (n / 10) ++ [digitChar (n % 10)] := by
  have hlt : n / 10 < n := Nat.div_lt_self (by omega) (by omega)
  rw [show natDigs n = natDigsF (n + 1) n [] from rfl]
  simp only [natDigsF, if_neg h]
  rw [natDigsF_append (by omega)]
  rw [natDigsF_fuel (f := n) (g := n / 10 + 1) (by omega) (by omega)]
  rfl

lemma natDigs_small {n : Nat} (h : n < 10) : natDigs n = [digitChar n] := by
  simp [natDigs, natDigsF, h]

lemma natDigs_ne_nil {n : Nat} : natDigs n ≠ [] := by
  by_cases h : n < 10
  · simp [natDigs_small h]
  · rw [natDigs_step h]
    simp

lemma natDigs_all_isDigit {n : Nat} : ∀ c ∈ natDigs n, c.isDigit = true := by
  induction n using Nat.strong_induction_on with
  | _ n ih =>
    by_cases h : n < 10
    · rw [natDigs_small h]
      intro c hc
      rw [List.mem_singleton] at hc
      subst hc
      exact digitChar_isDigit h
    · rw [natDigs_step h]
      intro c hc
      rw [List.mem_append] at hc
      rcases hc with hc | hc
      · exact ih (n / 10) (Nat.div_lt_self (by omega) (by omega)) c hc
      · rw [List.mem_singleton] at hc
        subst hc
        exact digitChar_isDigit (Nat.mod_lt _ (by omega))

lemma digsToNat_append_single {ds : List Char} {c : Char} :
    digsToNat (ds ++ [c]) = 10 * digsToNat ds + digitVal c := by
  simp [digsToNat, List.foldl_append, Nat.mul_comm]

lemma digsToNat_natDigs {n : Nat} : digsToNat (natDigs n) = n := by
  induction n using Nat.strong_induction_on with
  | _ n ih =>
    by_cases h : n < 10
    · rw [natDigs_small h]
      simp [digsToNat, digitVal_digitChar h]
    · rw [natDigs_step h, digsToNat_append_single,
        ih (n / 10) (Nat.div_lt_self (by omega) (by omega)),
        digitVal_digitChar (Nat.mod_lt _ (by omega))]
      omega

lemma dropWhile_eq_self_of_all {p : Char → Bool} :
    ∀ {cs : List Char}, (∀ c ∈ cs, p c = false) → cs.dropWhile p = cs := by
  intro cs h
  match cs with
  | [] => rfl
  | c :: t =>
    rw [List.dropWhile_cons, h c (by simp)]
    simp

lemma trimEnds_eq_self_of_all {cs : List Char}
    (h : ∀ c ∈ cs, isPySpace c = false) : trimEnds cs = cs := by
  unfold trimEnds
  rw [dropWhile_eq_self_of_all h,
    dropWhile_eq_self_of_all (by intro c hc; exact h c (List.mem_reverse.mp hc)),
    List.reverse_reverse]

lemma trimEnds_digits {ds : List Char} (h : ∀ c ∈ ds, c.isDigit = true) :
    trimEnds ds = ds :=
  trimEnds_eq_self_of_all fun c hc => isDigit_not_space (h c hc)

lemma pyIntChars_digits {ds : List Char} (h1 : ds ≠ [])
    (h2 : ∀ c ∈ ds, c.isDigit = true) :
    pyIntChars ds = .ok (digsToNat ds : Int) := by
  unfold pyIntChars
  rw [trimEnds_digits h2]
  match ds, h1 with
  | c :: t, _ =>
    have hc : c.isDigit = true := h2 c (by simp)
    have hm : c ≠ '-' := isDigit_ne hc (by decide)
    have hp : c ≠ '+' := isDigit_ne hc (by decide)
    simp only [if_neg hm, if_neg hp]
    rw [if_pos]
    simp only [List.all_eq_true]
    intro c hc2
    exact h2 c hc2

lemma pyIntChars_natDigs {n : Nat} : pyIntChars (natDigs n) = .ok (n : Int) := by
  rw [pyIntChars_digits natDigs_ne_nil natDigs_all_isDigit, digsToNat_natDigs]

lemma pyIntChars_encInt {i : Int} : pyIntChars (encIntChars i) = .ok i := by
  match i with
  | .ofNat n => exact pyIntChars_natDigs
  | .negSucc n =>
    have hne := natDigs_ne_nil (n := n + 1)
    have hall := natDigs_all_isDigit (n := n + 1)
    have hcond : (!(natDigs (n + 1)).isEmpty && (natDigs (n + 1)).all Char.isDigit) = true := by
      rw [isEmpty_false_of_ne_nil hne]
      simp only [Bool.not_false, Bool.true_and, List.all_eq_true]
      exact hall
    unfold pyIntChars encIntChars
    rw [trimEnds_eq_self_of_all]
    · simp only [if_pos rfl, hcond, if_true]
      rw [digsToNat_natDigs]
      simp [Int.negSucc_eq]
    · intro c hc
      rw [List.mem_cons] at hc
      rcases hc with rfl | hc
      · decide
      · exact isDigit_not_space (hall c hc)

lemma readInt_encInt {i : Int} {ls : List String} {n : Nat} :
    readInt ⟨encInt i :: ls, n⟩ = .ok (i, ⟨ls, n + 1⟩) := by
  simp [readInt, readString, pyInt, encInt, pyIntChars_encInt]

lemma readInt_natDigs {m : Nat} {ls : List String} {n : Nat} :
    readInt ⟨(⟨natDigs m⟩ : String) :: ls, n⟩ = .ok ((m : Int), ⟨ls, n + 1⟩) := by
  simp [readInt, readString, pyInt, pyIntChars_natDigs]

@[simp] lemma ok_bind {α β : Type} (a : α) (g : α → Except Err β) :
    (Except.ok a >>= g) = g a := rfl

@[simp] lemma pure_eq_ok {α : Type} (a : α) : (pure a : Except Err α) = .ok a := rfl

@[simp] lemma error_bind {α β : Type} (e : Err) (g : α → Except Err β) :
    ((Except.error e : Except Err α) >>= g) = .error e := rfl

@[simp] lemma readString_cons {l : String} {ls : List String} {n : Nat} :
    readString ⟨l :: ls, n⟩ = (l, ⟨ls, n + 1⟩) := rfl

@[simp] lemma string_mk_data {cs : List Char} : (⟨cs⟩ : String).data = cs := rfl

lemma dropLit_self_append : ∀ {lit rest : List Char}, dropLit lit (lit ++ rest) = some rest := by
  intro lit
  induction lit with
  | nil => intro rest; rfl
  | cons c t ih => intro rest; simpa [dropLit] using ih

lemma takeWhile_append_all {p : Char → Bool} :
    ∀ {xs ys : List Char}, (∀ c ∈ xs, p c = true) →
      (xs ++ ys).takeWhile p = xs ++ ys.takeWhile p := by
  intro xs
  induction xs with
  | nil => intro ys _; rfl
  | cons c t ih =>
    intro ys h
    rw [List.cons_append, List.takeWhile_cons, h c (by simp), List.cons_append]
    rw [ih fun c hc => h c (by simp [hc])]
    simp

lemma takeWhile_all {p : Char → Bool} {xs : List Char} (h : ∀ c ∈ xs, p c = true) :
    xs.takeWhile p = xs := by
  have := @takeWhile_append_all p xs [] h
  simpa using this

lemma startsSeq_self : ∀ {l : List Char}, startsSeq l l = true := by
  intro l
  induction l with
  | nil => rfl
  | cons c t ih => simp [startsSeq, ih]

lemma hasSub_append_left {needle : List Char} :
    ∀ {pre hay : List Char}, hasSub needle hay = true → hasSub needle (pre ++ hay) = true := by
  intro pre
  induction pre with
  | nil => intro hay h; simpa using h
  | cons c t ih =>
    intro hay h
    rw [List.cons_append]
    unfold hasSub
    rw [ih h]
    simp

lemma hasSub_false_of_no_first {c0 : Char} {t : List Char} :
    ∀ {hay : List Char}, (∀ c ∈ hay, c ≠ c0) → hasSub (c0 :: t) hay = false := by
  intro hay
  induction hay with
  | nil => intro _; rfl
  | cons h hs ih =>
    intro hne
    unfold hasSub
    have h1 : (c0 == h) = false := by
      have := hne h (by simp)
      simp [BEq.comm]
      exact fun hc => absurd hc.symm this
    rw [Bool.or_eq_false_iff]
    constructor
    · unfold startsSeq
      rw [h1]
      simp
    · exact ih fun c hc => hne c (by simp [hc])

lemma readValue_int {f : Nat} {v : Int} {ls : List String} {n : Nat} :
    readValue (f + 1) ⟨encInt MooTypes.INT :: encInt v :: ls, n⟩ =
      .ok (.int v, ⟨ls, n + 2⟩) := by
  unfold readValue
  rw [readInt_encInt]
  simp only [MooTypes.INT, MooTypes.STR, MooTypes.OBJ, MooTypes.ANON]
  norm_num
  rw [readInt_encInt]

/-- Encoded (key, value) integer pair stream for a map body. -/
def encPairs : List (Int × Int) → List String
  | [] => []
  | (k, v) :: t =>
      encInt MooTypes.INT :: encInt k :: encInt MooTypes.INT :: encInt v :: encPairs t

/-- The dict produced by inserting the encoded int pairs in order. -/
def intPairsDict : List (Int × Int) → List (PyValue × PyValue) → List (PyValue × PyValue)
  | [], m => m
  | (k, v) :: t, m => intPairsDict t (assocSet m (.int k) (.int v))

lemma pyBeq_int_self {k : Int} : pyBeq (.int k) (.int k) = true := by
  simp [pyBeq]

lemma dictHasKey_assocSet_self {m : List (PyValue × PyValue)} {a v : PyValue}
    (ha : pyBeq a a = true) : dictHasKey (assocSet m a v) a = true := by
  induction m with
  | nil => simp [assocSet, dictHasKey, ha]
  | cons p t ih =>
    obtain ⟨k0, v0⟩ := p
    by_cases h : pyBeq k0 a = true
    · simp [assocSet, h, dictHasKey]
    · simp only [assocSet, dictHasKey] at *
      simp [h, ih]

lemma dictHasKey_assocSet_mono {m : List (PyValue × PyValue)} {a v b : PyValue}
    (h : dictHasKey m b = true) : dictHasKey (assocSet m a v) b = true := by
  induction m with
  | nil => simp [dictHasKey] at h
  | cons p t ih =>
    obtain ⟨k0, v0⟩ := p
    simp only [dictHasKey, List.any_cons, Bool.or_eq_true] at h
    by_cases hk : pyBeq k0 a = true
    · simp only [assocSet, hk, if_true, dictHasKey, List.any_cons, Bool.or_eq_true]
      rcases h with h | h
      · exact Or.inl h
      · exact Or.inr h
    · simp only [assocSet, hk, if_false, Bool.false_eq_true, dictHasKey, List.any_cons,
        Bool.or_eq_true] at *
      rcases h with h | h
      · exact Or.inl h
      · exact Or.inr (ih h)

lemma intPairsDict_mono : ∀ {pairs : List (Int × Int)} {m : List (PyValue × PyValue)}
    {b : PyValue}, dictHasKey m b = true → dictHasKey (intPairsDict pairs m) b = true := by
  intro pairs
  induction pairs with
  | nil => intro m b h; simpa [intPairsDict] using h
  | cons kv t ih =>
    intro m b h
    obtain ⟨k, v⟩ := kv
    exact ih (dictHasKey_assocSet_mono h)

lemma intPairsDict_hasKey : ∀ {pairs : List (Int × Int)} {m : List (PyValue × PyValue)}
    {k v : Int}, (k, v) ∈ pairs → dictHasKey (intPairsDict pairs m) (.int k) = true := by
  intro pairs
  induction pairs with
  | nil => intro m k v h; simp at h
  | cons kv t ih =>
    intro m k v h
    obtain ⟨k0, v0⟩ := kv
    rw [List.mem_cons] at h
    simp only [intPairsDict]
    rcases h with h | h
    · injection h with h1 h2
      subst h1
      exact intPairsDict_mono (dictHasKey_assocSet_self pyBeq_int_self)
    · exact ih h

lemma readMapItems_intPairs : ∀ (pairs : List (Int × Int))
    (m : List (PyValue × PyValue)) (ls : List String) (n f : Nat),
    pairs.length + 1 ≤ f →
    readMapItems f pairs.length m ⟨encPairs pairs ++ ls, n⟩ =
      .ok (intPairsDict pairs m, ⟨ls, n + 4 * pairs.length⟩) := by
  intro pairs
  induction pairs with
  | nil =>
    intro m ls n f hf
    match f, hf with
    | f + 1, _ => simp [readMapItems, encPairs, intPairsDict]
  | cons kv t ih =>
    intro m ls n f hf
    obtain ⟨k, v⟩ := kv
    simp only [List.length_cons] at hf
    obtain ⟨g, rfl⟩ : ∃ g, f = g + 2 := ⟨f - 2, by omega⟩
    show readMapItems (g + 1 + 1) (t.length + 1) m ⟨encPairs ((k, v) :: t) ++ ls, n⟩ = _
    unfold readMapItems
    rw [show encPairs ((k, v) :: t) ++ ls =
      encInt MooTypes.INT :: encInt k :: encInt MooTypes.INT :: encInt v ::
        (encPairs t ++ ls) from rfl]
    simp only [readValue_int,
      show dictSet m (.int k) (.int v) = .ok (assocSet m (.int k) (.int v)) from rfl]
    rw [ih (assocSet m (.int k) (.int v)) ls (n + 2 + 2) (g + 1) (by omega)]
    simp only [intPairsDict, List.length_cons]
    have : n + 2 + 2 + 4 * t.length = n + 4 * (t.length + 1) := by omega
    rw [this]

/-- The version line of a dump declaring the version written with the
digit characters `ds`. -/
def verLine (ds : List Char) : String :=
  ⟨"** LambdaMOO Database, Format Version ".data ++ (ds ++ " **".data)⟩

lemma matchVersion_encoded {ds : List Char} (h1 : ds ≠ [])
    (h2 : ∀ c ∈ ds, c.isDigit = true) :
    matchVersion (verLine ds).data = some ds := by
  have h3 : dropLit " **".data (" **".data) = some [] := by
    have := @dropLit_self_append " **".data []
    simpa using this
  simp only [verLine, string_mk_data, matchVersion, dropLit_self_append,
    takeWhile_append_all h2,
    show (" **".data : List Char).takeWhile Char.isDigit = [] from rfl,
    List.append_nil, isEmpty_false_of_ne_nil h1, Bool.false_eq_true, if_false,
    List.drop_left, h3]

/-- C1: the claim says parse dispatches exactly for version 4 or any
version at least 17.  This counterexample evaluates `parse` at a
well-formed header declaring version 18 — a next-gen version at least
17 — and shows it fails with the unsupported-version parse error,
refuting the claim as stated. -/
theorem C1_version18_rejected :
    parse 5 ⟨["** LambdaMOO Database, Format Version 18 **"], 0⟩ =
      .error (.parseError "Unknown db version 18" 1) := by rfl

/-- C1 (amended): for an input whose first line declares a format
version N, `parse` dispatches to the legacy section sequence exactly
when N = 4 and to the next-gen sequence exactly when N = 17; every
other N — including every N at least 18 — fails with the
`Unknown db version` (UnsupportedVersion) parse error at line 1. -/
theorem C1_version_dispatch (ds : List Char) (rest : List String) (f : Nat)
    (h1 : ds ≠ []) (h2 : ∀ c ∈ ds, c.isDigit = true) :
    parse f ⟨verLine ds :: rest, 0⟩ =
      (if digsToNat ds = 4 then
        parse_v4 f { versionstring := verLine ds, version := 4 } ⟨rest, 1⟩
      else if digsToNat ds = 17 then
        parse_v17 f { versionstring := verLine ds, version := 17 } ⟨rest, 1⟩
      else .error (.parseError (s!"Unknown db version {(digsToNat ds : Int)}") 1)) := by
  unfold parse
  simp only [readString_cons, matchVersion_encoded h1 h2]
  by_cases h4 : digsToNat ds = 4
  · have h4i : ((digsToNat ds : Nat) : Int) = 4 := by exact_mod_cast h4
    simp [h4, h4i]
  · have h4i : ((digsToNat ds : Nat) : Int) ≠ 4 := by exact_mod_cast h4
    by_cases h17 : digsToNat ds = 17
    · have h17i : ((digsToNat ds : Nat) : Int) = 17 := by exact_mod_cast h17
      simp [h4, h4i, h17, h17i]
    · have h17i : ((digsToNat ds : Nat) : Int) ≠ 17 := by exact_mod_cast h17
      simp [h4, h4i, h17, h17i]

/-- Witness for `C1_version_dispatch` at the digit string `4`: the
hypotheses hold and the dispatch lands in the legacy branch. -/
theorem C1_version_dispatch_witness :
    parse 3 ⟨[verLine ['4']], 0⟩ =
      (if digsToNat ['4'] = 4 then
        parse_v4 3 { versionstring := verLine ['4'], version := 4 } ⟨[], 1⟩
      else if digsToNat ['4'] = 17 then
        parse_v17 3 { versionstring := verLine ['4'], version := 17 } ⟨[], 1⟩
      else .error (.parseError "Unknown db version 4" 1)) :=
  C1_version_dispatch ['4'] [] 3 (by decide) (by decide)

/-- C2: the claim says a positive interrupted-task count fails with a
deliberate UnsupportedFeature error after the count header and the
first per-task header line are read.  Evaluating the decoder: when the
per-task header happens to match the (broken) header regex, the
`raise NotImplemented()` statement raises a plain `TypeError`
(`NotImplemented` is not callable); when the header is a real-format
line such as `0 interrupted reading task`, the regex does not match
and the generic `Bad interrupted tasks header` parse error is raised
instead.  In neither case is a deliberate unsupported-feature error
produced. -/
theorem C2_interrupted_task_eval :
    readInterruptedTasks {} ⟨["1 interrupted tasks", " interrupted reading task"], 0⟩ =
      .error (.typeError "NotImplementedType object is not callable") ∧
    readInterruptedTasks {} ⟨["1 interrupted tasks", "0 interrupted reading task"], 0⟩ =
      .error (.parseError "Bad interrupted tasks header" 2) := ⟨rfl, rfl⟩

/-- C3: the claim says any decoded Value, including a List, is
accepted as a map key without error.  This counterexample decodes a
map (tag 10) of one pair whose key is an empty list (tag 4, count 0)
and whose value is the integer 5 (tag 0): inserting the list key into
the Python dict raises the unhashable-type `TypeError`, refuting the
claim. -/
theorem C3_list_key_rejected :
    readValue 10 ⟨["10", "1", "4", "0", "0", "5"], 0⟩ =
      .error (.typeError "unhashable type") := by rfl

/-- C3 (amended): `readValue` on a Map tag reads a count line and then
that many (key, value) pairs, and the resulting mapping contains every
decoded key, provided the keys are hashable values; a List (or Map)
key raises the unhashable-type `TypeError` instead of being accepted
(shown by `C3_list_key_rejected`).  Stated here for integer keys and
values: for any pair list, decoding produces the dict built by
inserting each pair in order, and every decoded key is present. -/
theorem C3_map_scalar_keys (pairs : List (Int × Int)) (ls : List String) (n f : Nat)
    (hf : pairs.length + 3 ≤ f) :
    ∃ d : List (PyValue × PyValue),
      readValue f
          ⟨encInt MooTypes.MAP :: encInt (pairs.length : Int) :: (encPairs pairs ++ ls), n⟩ =
        .ok (.dict d, ⟨ls, n + 2 + 4 * pairs.length⟩) ∧
      ∀ kv ∈ pairs, dictHasKey d (.int kv.1) = true := by
  obtain ⟨g, rfl⟩ : ∃ g, f = g + 2 := ⟨f - 2, by omega⟩
  refine ⟨intPairsDict pairs [], ?_, ?_⟩
  · unfold readValue
    simp only [readInt_encInt]
    norm_num [MooTypes.MAP, MooTypes.STR, MooTypes.OBJ, MooTypes.ANON, MooTypes.INT,
      MooTypes.FLOAT, MooTypes.ERR, MooTypes.LIST, MooTypes.CLEAR, MooTypes.NONE]
    unfold readMap
    simp only [readInt_encInt, Int.toNat_natCast]
    rw [readMapItems_intPairs pairs [] ls (n + 2) g (by omega)]
  · intro kv hkv
    obtain ⟨k, v⟩ := kv
    exact intPairsDict_hasKey hkv

/-- Witness for `C3_map_scalar_keys`: two integer pairs, fuel 5; both
keys are present in the decoded dict. -/
theorem C3_map_scalar_keys_witness :
    ∃ d : List (PyValue × PyValue),
      readValue 5
          ⟨encInt MooTypes.MAP :: encInt (([((1 : Int), (2 : Int)), (3, 4)].length : Nat) : Int) ::
            (encPairs [(1, 2), (3, 4)] ++ []), 0⟩ =
        .ok (.dict d, ⟨[], 0 + 2 + 4 * [((1 : Int), (2 : Int)), (3, 4)].length⟩) ∧
      ∀ kv ∈ [((1 : Int), (2 : Int)), (3, 4)], dictHasKey d (.int kv.1) = true :=
  C3_map_scalar_keys [(1, 2), (3, 4)] [] 0 5 (by decide)

/-- C4: the claim says an out-of-range verb index fails with a
ReferenceNotFound error.  Evaluating the decoder: a code block
addressed to `#0:5` on an object with one verb raises the bare Python
`IndexError` from `obj.verbs[5]` — the decoder's own
`verb not found` parse error is unreachable because a `Verb` instance
is always truthy.  The other two legs of the claim hold and are also
evaluated: a missing object id fails with the `object 9 not found`
parse error, and a well-addressed block (`#0:0`) attaches the code to
the verb at that index. -/
theorem C4_out_of_range_verb_eval :
    readVerb { objects := [(0, ⟨0, "obj", 0, 0, .int 0, .int 0,
        [⟨"look", 0, 0, 0, Option.none⟩], []⟩)] } ⟨["#0:5", "."], 0⟩ =
      .error .indexError ∧
    readVerb { objects := [] } ⟨["#9:0", "."], 0⟩ =
      .error (.parseError "object 9 not found" 2) ∧
    readVerb { objects := [(0, ⟨0, "obj", 0, 0, .int 0, .int 0,
        [⟨"look", 0, 0, 0, Option.none⟩], []⟩)] } ⟨["#0:0", "x", "."], 0⟩ =
      .ok ({ objects := [(0, ⟨0, "obj", 0, 0, .int 0, .int 0,
        [⟨"look", 0, 0, 0, some ["x"]⟩], []⟩)] }, ⟨[], 3⟩) := ⟨rfl, rfl, rfl⟩

/-- C5: the claim says a suspended-task header is accepted both with
and without a trailing value, and that the terminal value is present
exactly when the header carried one.  Evaluating the decoder: the
no-value record `100 5` (header followed by nothing, i.e. a newline in
the file) is REJECTED with the `Bad suspended task header` parse
error, because `readString` strips the newline the regex's
`(?P<endchar>\n| )` branch would need; and the value-carrying record
`100 5 14` is accepted but its value is NOT decoded (the `value` group
can only ever take its empty alternative), leaving a task with line
number 0 and no terminal value. -/
theorem C5_suspended_task_eval :
    readSuspendedTask 5 {} ⟨["100 5"], 0⟩ =
      .error (.parseError "Bad suspended task header: 100 5" 1) ∧
    readSuspendedTask 5 {} ⟨["100 5 14"], 0⟩ =
      .ok ({ queuedTasks := [{ firstLineno := 0, id := 5, st := 100 }] }, ⟨[], 1⟩) :=
  ⟨rfl, rfl⟩

/-- Join field strings with single spaces (the writer's layout of a
multi-field numeric header line). -/
def encFields : List (List Char) → List Char
  | [] => []
  | [d] => d
  | d :: rest => d ++ ' ' :: encFields rest

lemma digitField_encoded {ds rest : List Char} (h1 : ds ≠ [])
    (h2 : ∀ c ∈ ds, c.isDigit = true) (h3 : rest.takeWhile Char.isDigit = []) :
    digitField (ds ++ rest) = some (ds, rest) := by
  simp only [digitField, takeWhile_append_all h2, h3, List.append_nil,
    isEmpty_false_of_ne_nil h1, Bool.false_eq_true, if_false, List.drop_left]

lemma signedField_encoded {ds rest : List Char} (h1 : ds ≠ [])
    (h2 : ∀ c ∈ ds, c.isDigit = true) (h3 : rest.takeWhile Char.isDigit = []) :
    signedField (ds ++ rest) = some (ds, rest) := by
  match ds, h1 with
  | c :: t, h1 =>
    have hc : c ≠ '-' := isDigit_ne (h2 c (by simp)) (by decide)
    have h4 : signedField ((c :: t) ++ rest) =
        if c = '-' then digitField (t ++ rest) else digitField (c :: (t ++ rest)) := rfl
    rw [h4, if_neg hc, ← List.cons_append]
    exact digitField_encoded h1 h2 h3

lemma fieldsScan_signed_encoded : ∀ (dss : List (List Char)), dss ≠ [] →
    (∀ ds ∈ dss, ds ≠ [] ∧ ∀ c ∈ ds, c.isDigit = true) →
    fieldsScan signedField dss.length (encFields dss) = some (dss, []) := by
  intro dss
  induction dss with
  | nil => intro h _; exact absurd rfl h
  | cons d t ih =>
    intro _ hds
    obtain ⟨hne, hdig⟩ := hds d (by simp)
    cases t with
    | nil =>
      show fieldsScan signedField 1 (encFields [d]) = some ([d], [])
      have hsf : signedField (encFields [d]) = some (d, []) := by
        have := @signedField_encoded d [] hne hdig (by rfl)
        simpa [encFields] using this
      unfold fieldsScan
      rw [hsf]
      simp
    | cons d2 t2 =>
      show fieldsScan signedField ((d2 :: t2).length + 1)
          (d ++ ' ' :: encFields (d2 :: t2)) = _
      have hsf : signedField (d ++ ' ' :: encFields (d2 :: t2)) =
          some (d, ' ' :: encFields (d2 :: t2)) :=
        signedField_encoded hne hdig (by simp [List.takeWhile_cons])
      have ih2 := ih (by simp) (fun ds hds2 => hds ds (by simp [hds2]))
      simp only [List.length_cons] at ih2
      unfold fieldsScan
      rw [hsf]
      simp [ih2]

lemma matchActivationHeader_encoded {d1 d2 d3 d4 d5 d6 d7 d8 d9 : List Char}
    (h : ∀ ds ∈ [d1, d2, d3, d4, d5, d6, d7, d8, d9],
      ds ≠ [] ∧ ∀ c ∈ ds, c.isDigit = true) :
    matchActivationHeader (encFields [d1, d2, d3, d4, d5, d6, d7, d8, d9]) =
      some (d1, d4, d6, d7, d9) := by
  unfold matchActivationHeader
  rw [show (9 : Nat) = ([d1, d2, d3, d4, d5, d6, d7, d8, d9].length) from rfl,
    fieldsScan_signed_encoded _ (by simp) h]

/-- C6: the claim says the activation header consists of exactly six
signed numeric fields.  This counterexample feeds `readActivation` (at
version 4, after its one leading value) a six-field header line
`1 2 3 4 5 6`: the header regex — which requires NINE fields — does
not match, and the decoder fails with the
`Could not find activation header` parse error, refuting the claim. -/
theorem C6_six_field_header_rejected :
    readActivation 5 { version := 4 }
      ⟨["0", "7", "1 2 3 4 5 6", "a", "b", "c", "d", "vl", "vn"], 0⟩ =
      .error (.parseError "Could not find activation header" 3) := by rfl

/-- C6 (amended): after the version-gated leading values,
`readActivation` accepts an activation header line of NINE numeric
fields (each may carry a leading sign); `this`, `player`,
`programmer`, `vloc` are the magnitudes of fields 1, 4, 6 and 7 (the
capture groups exclude the sign, so signs are dropped), and `debug` is
the truthiness of field 9's non-empty digit group, hence always true
on a match; then four discarded legacy string lines are read, followed
by the verb-location string and the verb-name string.  The second
conjunct shows the sign-dropping on the concrete signed header
`-1 2 3 -4 5 6 7 8 9`, whose `this` decodes to 1, not -1. -/
theorem C6_activation_nine_fields :
    (∀ (v0 : Int) (n1 n2 n3 n4 n5 n6 n7 n8 n9 : Nat)
      (s1 s2 s3 s4 vl vn : String) (rest : List String) (f ln : Nat),
      readActivation (f + 1) { version := 4 }
        ⟨encInt MooTypes.INT :: encInt v0 ::
          (⟨encFields [natDigs n1, natDigs n2, natDigs n3, natDigs n4, natDigs n5,
            natDigs n6, natDigs n7, natDigs n8, natDigs n9]⟩ : String) ::
          s1 :: s2 :: s3 :: s4 :: vl :: vn :: rest, ln⟩ =
        .ok (⟨(n1 : Int), (n4 : Int), (n6 : Int), (n7 : Int), true, vl, vn⟩,
          ⟨rest, ln + 9⟩)) ∧
    readActivation 5 { version := 4 }
      ⟨["0", "7", "-1 2 3 -4 5 6 7 8 9", "a", "b", "c", "d", "vl", "vn"], 0⟩ =
      .ok (⟨1, 4, 6, 7, true, "vl", "vn"⟩, ⟨[], 9⟩) := by
  constructor
  · intro v0 n1 n2 n3 n4 n5 n6 n7 n8 n9 s1 s2 s3 s4 vl vn rest f ln
    have hds : ∀ ds ∈ [natDigs n1, natDigs n2, natDigs n3, natDigs n4, natDigs n5,
        natDigs n6, natDigs n7, natDigs n8, natDigs n9],
        ds ≠ [] ∧ ∀ c ∈ ds, c.isDigit = true := by
      intro ds hds
      simp only [List.mem_cons, List.not_mem_nil, or_false] at hds
      rcases hds with rfl | rfl | rfl | rfl | rfl | rfl | rfl | rfl | rfl <;>
        exact ⟨natDigs_ne_nil, natDigs_all_isDigit⟩
    unfold readActivation
    simp only [readValue_int, DBVersions.DBV_This, DBVersions.DBV_Anon,
      DBVersions.DBV_Threaded,
      show ¬((4 : Int) ≥ 11) from by norm_num,
      show ¬((4 : Int) ≥ 12) from by norm_num,
      show ¬((4 : Int) ≥ 15) from by norm_num, if_false,
      readString_cons, ok_bind, pure_eq_ok, string_mk_data,
      matchActivationHeader_encoded hds,
      pyIntChars_natDigs, isEmpty_false_of_ne_nil (natDigs_ne_nil (n := n9)),
      Bool.not_false]
  · rfl

lemma readCodeAux_encoded : ∀ (code rest : List String) (n : Nat), "." ∉ code →
    readCodeAux (code ++ "." :: rest) n = .ok (code, ⟨rest, n + code.length + 1⟩) := by
  intro code
  induction code with
  | nil => intro rest n _; simp [readCodeAux]
  | cons l t ih =>
    intro rest n h
    have hl : l ≠ "." := by
      intro e
      exact h (by simp [e])
    simp only [List.cons_append, readCodeAux, if_neg hl, List.append_eq]
    rw [ih rest (n + 1) (fun hc => h (by simp [hc]))]
    have : n + 1 + t.length + 1 = n + (l :: t).length + 1 := by
      simp only [List.length_cons]
      omega
    rw [this]

/-- C10: for a verb-code header line `#<objectId>:<verbIndex>` whose
verb index parses as a negative integer i with |i| at most the number
of verbs on the resolved object, `readVerb` does not fail: Python list
indexing wraps the negative index, attaching the code block to the
verb at position (verb count + i) from the start. -/
theorem C10_negative_verb_index (db : MooDatabase) (locLine : String)
    (pre post : List Char) (oid i : Int) (obj : MooObject)
    (code rest : List String) (n : Nat)
    (hsplit : splitFirstColon locLine.data = some (pre, post))
    (hpre : pyIntChars (pre.drop 1) = .ok oid)
    (hpost : pyIntChars post = .ok i)
    (hobj : dictGetInt db.objects oid = some obj)
    (hneg : i < 0)
    (hle : -i ≤ (obj.verbs.length : Int))
    (hdot : "." ∉ code) :
    ∃ (verb : Verb) (hjlt : (i + (obj.verbs.length : Int)).toNat < obj.verbs.length),
      obj.verbs.get ⟨(i + (obj.verbs.length : Int)).toNat, hjlt⟩ = verb ∧
      readVerb db ⟨locLine :: (code ++ "." :: rest), n⟩ =
        .ok ({ db with objects := (dictSetInt db.objects oid { obj with verbs := obj.verbs.set (i + (obj.verbs.length : Int)).toNat { verb with code := some code } }) }, ⟨rest, n + code.length + 2⟩) := by
  have hjlt : (i + (obj.verbs.length : Int)).toNat < obj.verbs.length := by omega
  refine ⟨obj.verbs.get ⟨(i + (obj.verbs.length : Int)).toNat, hjlt⟩, hjlt, rfl, ?_⟩
  have hidx : pyIndex obj.verbs i =
      .ok (obj.verbs.get ⟨(i + (obj.verbs.length : Int)).toNat, hjlt⟩,
        (i + (obj.verbs.length : Int)).toNat) := by
    unfold pyIndex
    simp only [if_pos hneg]
    rw [dif_pos ⟨by omega, by omega⟩]
  unfold readVerb
  simp only [readString_cons, hsplit, hpre, hpost, ok_bind, readCode]
  rw [readCodeAux_encoded code rest (n + 1) hdot]
  simp only [ok_bind, hobj, hidx]
  have : n + 1 + code.length + 1 = n + code.length + 2 := by omega
  rw [this]

/-- Witness for `C10_negative_verb_index`: the code block `#0:-1` on
an object with two verbs attaches to the verb at position 1 (= 2 + (-1)). -/
theorem C10_negative_verb_index_witness :
    ∃ (verb : Verb) (hjlt : ((-1 : Int) + ((([⟨"a", 0, 0, 0, Option.none⟩,
        ⟨"b", 0, 0, 0, Option.none⟩] : List Verb).length : Nat) : Int)).toNat <
        ([⟨"a", 0, 0, 0, Option.none⟩, ⟨"b", 0, 0, 0, Option.none⟩] : List Verb).length),
      ([⟨"a", 0, 0, 0, Option.none⟩, ⟨"b", 0, 0, 0, Option.none⟩] : List Verb).get
          ⟨((-1 : Int) + ((([⟨"a", 0, 0, 0, Option.none⟩,
            ⟨"b", 0, 0, 0, Option.none⟩] : List Verb).length : Nat) : Int)).toNat, hjlt⟩ = verb ∧
      readVerb { objects := [(0, ⟨0, "o", 0, 0, .int 0, .int 0,
          [⟨"a", 0, 0, 0, Option.none⟩, ⟨"b", 0, 0, 0, Option.none⟩], []⟩)] }
        ⟨"#0:-1" :: (["x"] ++ "." :: []), 0⟩ =
        .ok ({ objects := (dictSetInt [(0, ⟨0, "o", 0, 0, .int 0, .int 0, [⟨"a", 0, 0, 0, Option.none⟩, ⟨"b", 0, 0, 0, Option.none⟩], []⟩)] 0 { (⟨0, "o", 0, 0, .int 0, .int 0, [⟨"a", 0, 0, 0, Option.none⟩, ⟨"b", 0, 0, 0, Option.none⟩], []⟩ : MooObject) with verbs := ([⟨"a", 0, 0, 0, Option.none⟩, ⟨"b", 0, 0, 0, Option.none⟩] : List Verb).set ((-1 : Int) + ((([⟨"a", 0, 0, 0, Option.none⟩, ⟨"b", 0, 0, 0, Option.none⟩] : List Verb).length : Nat) : Int)).toNat { verb with code := some ["x"] } }) }, ⟨[], 3⟩) :=
  C10_negative_verb_index
    { objects := [(0, ⟨0, "o", 0, 0, .int 0, .int 0,
        [⟨"a", 0, 0, 0, Option.none⟩, ⟨"b", 0, 0, 0, Option.none⟩], []⟩)] }
    "#0:-1" ['#', '0'] ['-', '1'] 0 (-1)
    ⟨0, "o", 0, 0, .int 0, .int 0,
      [⟨"a", 0, 0, 0, Option.none⟩, ⟨"b", 0, 0, 0, Option.none⟩], []⟩
    ["x"] [] 0 rfl rfl rfl rfl (by norm_num) (by norm_num) (by simp)

/-- Fixture description of one verb-metadata record. -/
structure V4VerbMeta where
  name : String
  owner : Int
  perms : Int
  preps : Int

/-- Fixture description of one property definition with an integer
value. -/
structure V4PropDef where
  value : Int
  owner : Int
  perms : Int

/-- Fixture description of one non-recycled v4 object record. -/
structure V4ObjDesc where
  oid : Nat
  name : String
  flags : Int
  owner : Int
  location : Int
  firstContent : Int
  neighbor : Int
  parent : Int
  firstChild : Int
  sibling : Int
  verbs : List V4VerbMeta
  propNames : List String
  propDefs : List V4PropDef

/-- A v4 object-section record: either a recycled placeholder
(`#<id> recycled`, one line) or a full object record. -/
inductive V4Rec where
  | recycled (rid : Nat)
  | obj (d : V4ObjDesc)

/-- Encoded lines of verb-metadata records. -/
def encVerbMetas : List V4VerbMeta → List String
  | [] => []
  | v :: t => v.name :: encInt v.owner :: encInt v.perms :: encInt v.preps :: encVerbMetas t

/-- Encoded lines of property definitions (INT-tagged value, owner,
perms). -/
def encPropDefs : List V4PropDef → List String
  | [] => []
  | d :: t => encInt MooTypes.INT :: encInt d.value :: encInt d.owner :: encInt d.perms ::
      encPropDefs t

/-- Encoded property section: name count, names, definition count,
definitions. -/
def encProps (names : List String) (defs : List V4PropDef) : List String :=
  encInt (names.length : Int) :: (names ++ encInt (defs.length : Int) :: encPropDefs defs)

/-- Encoded lines of one full v4 object record, in the exact order
`readObject_v4` consumes them. -/
def encObj (d : V4ObjDesc) : List String :=
  (⟨'#' :: natDigs d.oid⟩ : String) :: d.name :: "" :: encInt d.flags :: encInt d.owner ::
    encInt d.location :: encInt d.firstContent :: encInt d.neighbor :: encInt d.parent ::
    encInt d.firstChild :: encInt d.sibling :: encInt (d.verbs.length : Int) ::
    (encVerbMetas d.verbs ++ encProps d.propNames d.propDefs)

/-- Encoded lines of one record. -/
def encRec : V4Rec → List String
  | .recycled rid => [⟨'#' :: (natDigs rid ++ " recycled".data)⟩]
  | .obj d => encObj d

/-- Encoded lines of a record sequence. -/
def encRecs : List V4Rec → List String
  | [] => []
  | r :: t => encRec r ++ encRecs t

/-- The `Verb` a metadata record decodes to (code initially absent). -/
def verbOf (v : V4VerbMeta) : Verb := ⟨v.name, v.owner, v.perms, v.preps, Option.none⟩

/-- The properties a property section decodes to: each definition pops
one declared name while any remain (later ones have no name). -/
def expectedProps : List String → List V4PropDef → List Property
  | _, [] => []
  | ns, d :: t => ⟨ns.head?, .int d.value, d.owner, d.perms⟩ :: expectedProps ns.tail t

/-- The `MooObject` a full v4 record decodes to. -/
def objOf (d : V4ObjDesc) : MooObject :=
  ⟨(d.oid : Int), d.name, d.flags, d.owner, .int d.location, .int d.parent,
    d.verbs.map verbOf, expectedProps d.propNames d.propDefs⟩

/-- The object map entries a record sequence decodes to, in order,
recycled placeholders skipped. -/
def expectedObjs : List V4Rec → List (Int × MooObject)
  | [] => []
  | .recycled _ :: t => expectedObjs t
  | .obj d :: t => ((d.oid : Int), objOf d) :: expectedObjs t

/-- The ids of the non-recycled records, in order. -/
def nonRecycledIds : List V4Rec → List Int
  | [] => []
  | .recycled _ :: t => nonRecycledIds t
  | .obj d :: t => (d.oid : Int) :: nonRecycledIds t

/-- The number of recycled placeholders. -/
def recycledCount : List V4Rec → Nat
  | [] => 0
  | .recycled _ :: t => recycledCount t + 1
  | .obj _ :: t => recycledCount t

lemma verbMetaLoop_encoded : ∀ (vs : List V4VerbMeta) (obj : MooObject)
    (ls : List String) (n : Nat),
    verbMetaLoop vs.length obj ⟨encVerbMetas vs ++ ls, n⟩ =
      .ok ({ obj with verbs := obj.verbs ++ vs.map verbOf }, ⟨ls, n + 4 * vs.length⟩) := by
  intro vs
  induction vs with
  | nil => intro obj ls n; simp [verbMetaLoop, encVerbMetas]
  | cons v t ih =>
    intro obj ls n
    show verbMetaLoop (t.length + 1) obj
      ⟨(v.name :: encInt v.owner :: encInt v.perms :: encInt v.preps :: encVerbMetas t)
        ++ ls, n⟩ = _
    unfold verbMetaLoop readVerbMetadata
    simp only [List.cons_append, readString_cons, readObjnum, readInt_encInt, ok_bind]
    rw [ih { obj with verbs := obj.verbs ++ [⟨v.name, v.owner, v.perms, v.preps,
      Option.none⟩] } ls (n + 4)]
    have harith : n + 4 + 4 * t.length = n + 4 * (t.length + 1) := by omega
    simp only [List.map_cons, List.append_assoc, List.singleton_append, verbOf,
      List.length_cons, harith]

lemma propNamesLoop_encoded : ∀ (names : List String) (ls : List String) (n : Nat),
    propNamesLoop names.length ⟨names ++ ls, n⟩ = (names, ⟨ls, n + names.length⟩) := by
  intro names
  induction names with
  | nil => intro ls n; simp [propNamesLoop]
  | cons s t ih =>
    intro ls n
    show propNamesLoop (t.length + 1) ⟨(s :: t) ++ ls, n⟩ = _
    unfold propNamesLoop
    simp only [List.cons_append, readString_cons, ih]
    have : n + 1 + t.length = n + (t.length + 1) := by omega
    simp [this]

lemma propDefsLoop_encoded : ∀ (defs : List V4PropDef) (ns : List String)
    (obj : MooObject) (ls : List String) (n f : Nat),
    propDefsLoop (f + 1) defs.length ns obj ⟨encPropDefs defs ++ ls, n⟩ =
      .ok ({ obj with properties := obj.properties ++ expectedProps ns defs },
        ⟨ls, n + 4 * defs.length⟩) := by
  intro defs
  induction defs with
  | nil => intro ns obj ls n f; simp [propDefsLoop, encPropDefs, expectedProps]
  | cons d t ih =>
    intro ns obj ls n f
    show propDefsLoop (f + 1) (t.length + 1) ns obj
      ⟨(encInt MooTypes.INT :: encInt d.value :: encInt d.owner :: encInt d.perms ::
        encPropDefs t) ++ ls, n⟩ = _
    unfold propDefsLoop
    simp only [List.cons_append, readValue_int, readObjnum, readInt_encInt, ok_bind]
    rw [ih ns.tail { obj with properties := obj.properties ++ [⟨ns.head?, .int d.value,
      d.owner, d.perms⟩] } ls (n + 4) f]
    have harith : n + 4 + 4 * t.length = n + 4 * (t.length + 1) := by omega
    simp only [expectedProps, List.append_assoc, List.singleton_append,
      List.length_cons, harith]

lemma readProperties_encoded (names : List String) (defs : List V4PropDef)
    (obj : MooObject) (ls : List String) (n f : Nat) :
    readProperties (f + 1) obj ⟨encProps names defs ++ ls, n⟩ =
      .ok ({ obj with properties := obj.properties ++ expectedProps names defs },
        ⟨ls, n + 2 + names.length + 4 * defs.length⟩) := by
  unfold readProperties
  rw [show encProps names defs ++ ls = encInt (names.length : Int) ::
    (names ++ (encInt (defs.length : Int) :: (encPropDefs defs ++ ls))) by
      simp [encProps]]
  simp only [readInt_encInt, ok_bind, Int.toNat_natCast, propNamesLoop_encoded]
  rw [propDefsLoop_encoded defs names obj ls (n + 1 + names.length + 1) f]
  have : n + 1 + names.length + 1 + 4 * defs.length =
      n + 2 + names.length + 4 * defs.length := by omega
  rw [this]

lemma hasSub_recycled_false {k : Nat} :
    hasSub "recycled".data ('#' :: natDigs k) = false := by
  rw [show ("recycled".data : List Char) = 'r' :: "ecycled".data from rfl]
  apply hasSub_false_of_no_first
  intro c hc
  rw [List.mem_cons] at hc
  rcases hc with rfl | hc
  · decide
  · exact isDigit_ne (natDigs_all_isDigit c hc) (by decide)

lemma hasSub_recycled_lit_false {k : Nat} :
    hasSub ['r', 'e', 'c', 'y', 'c', 'l', 'e', 'd'] ('#' :: natDigs k) = false :=
  hasSub_recycled_false

lemma readObject_v4_encObj {d : V4ObjDesc} {ls : List String} {n f : Nat} :
    ∃ m : Nat, readObject_v4 (f + 1) ⟨encObj d ++ ls, n⟩ =
      .ok (some (objOf d), ⟨ls, m⟩) := by
  apply Exists.intro
  unfold readObject_v4
  simp only [encObj, List.cons_append, readString_cons, string_mk_data,
    show startsSeq ['#'] ('#' :: natDigs d.oid) = true by simp [startsSeq],
    Bool.not_true, Bool.false_eq_true, if_false, hasSub_recycled_lit_false,
    hasSub_recycled_false,
    show List.drop 1 ('#' :: natDigs d.oid) = natDigs d.oid from rfl,
    pyIntChars_natDigs,
    ok_bind, readObjnum, readInt_encInt, List.append_assoc, Int.toNat_natCast,
    verbMetaLoop_encoded, readProperties_encoded]
  rfl

lemma readObject_v4_recycled {rid : Nat} {ls : List String} {n f : Nat} :
    readObject_v4 f ⟨encRec (.recycled rid) ++ ls, n⟩ = .ok (Option.none, ⟨ls, n + 1⟩) := by
  have h1 : startsSeq ['#']
      ('#' :: (natDigs rid ++ [' ', 'r', 'e', 'c', 'y', 'c', 'l', 'e', 'd'])) = true := by
    simp [startsSeq]
  have h2 : hasSub ['r', 'e', 'c', 'y', 'c', 'l', 'e', 'd']
      ('#' :: (natDigs rid ++ [' ', 'r', 'e', 'c', 'y', 'c', 'l', 'e', 'd'])) = true := by
    rw [show ('#' :: (natDigs rid ++ [' ', 'r', 'e', 'c', 'y', 'c', 'l', 'e', 'd'])) =
      (('#' :: natDigs rid) ++ [' ']) ++ ['r', 'e', 'c', 'y', 'c', 'l', 'e', 'd'] by simp]
    apply hasSub_append_left
    unfold hasSub
    rw [startsSeq_self]
    simp
  unfold readObject_v4
  simp only [encRec, List.cons_append, List.nil_append, readString_cons, string_mk_data,
    h1, Bool.not_true, Bool.false_eq_true, if_false, h2, if_true]

lemma dictSetInt_fresh : ∀ {m : List (Int × MooObject)} {k : Int} {v : MooObject},
    (∀ p ∈ m, p.1 ≠ k) → dictSetInt m k v = m ++ [(k, v)] := by
  intro m
  induction m with
  | nil => intro k v _; rfl
  | cons p t ih =>
    intro k v h
    obtain ⟨k0, v0⟩ := p
    have hk : k0 ≠ k := h (k0, v0) (by simp)
    unfold dictSetInt
    rw [if_neg hk, ih fun q hq => h q (by simp [hq])]
    simp

lemma recycledCount_le : ∀ (recs : List V4Rec), recycledCount recs ≤ recs.length := by
  intro recs
  induction recs with
  | nil => simp [recycledCount]
  | cons r t ih =>
    cases r with
    | recycled rid => simp only [recycledCount, List.length_cons]; omega
    | obj d => simp only [recycledCount, List.length_cons]; omega

lemma expectedObjs_length : ∀ (recs : List V4Rec),
    (expectedObjs recs).length = recs.length - recycledCount recs := by
  intro recs
  induction recs with
  | nil => rfl
  | cons r t ih =>
    cases r with
    | recycled rid =>
      simp only [expectedObjs, recycledCount, List.length_cons, ih]
      omega
    | obj d =>
      have := recycledCount_le t
      simp only [expectedObjs, recycledCount, List.length_cons, ih]
      omega

lemma expectedObjs_keys : ∀ (recs : List V4Rec),
    (expectedObjs recs).map Prod.fst = nonRecycledIds recs := by
  intro recs
  induction recs with
  | nil => rfl
  | cons r t ih =>
    cases r with
    | recycled rid => simp only [expectedObjs, nonRecycledIds, ih]
    | obj d => simp only [expectedObjs, nonRecycledIds, List.map_cons, ih]

lemma objLoop_encRecs : ∀ (recs : List V4Rec) (db : MooDatabase)
    (ls : List String) (n f : Nat),
    db.version = 4 →
    (∀ i ∈ nonRecycledIds recs, ∀ p ∈ db.objects, p.1 ≠ i) →
    (nonRecycledIds recs).Pairwise (· ≠ ·) →
    ∃ m : Nat, objLoop (f + 1) recs.length db ⟨encRecs recs ++ ls, n⟩ =
      .ok ({ db with objects := db.objects ++ expectedObjs recs }, ⟨ls, m⟩) := by
  intro recs
  induction recs with
  | nil =>
    intro db ls n f _ _ _
    refine ⟨n, ?_⟩
    simp [objLoop, encRecs, expectedObjs]
  | cons r t ih =>
    intro db ls n f hv hfresh hpair
    cases r with
    | recycled rid =>
      show ∃ m, objLoop (f + 1) (t.length + 1) db
        ⟨(encRec (.recycled rid) ++ encRecs t) ++ ls, n⟩ = _
      rw [List.append_assoc]
      unfold objLoop
      rw [if_pos hv, readObject_v4_recycled]
      simp only [ok_bind]
      exact ih db ls (n + 1) f hv
        (fun i hi p hp => hfresh i (by simp [nonRecycledIds, hi]) p hp) hpair
    | obj d =>
      show ∃ m, objLoop (f + 1) (t.length + 1) db
        ⟨(encObj d ++ encRecs t) ++ ls, n⟩ = _
      rw [List.append_assoc]
      unfold objLoop
      obtain ⟨m2, hobj2⟩ :=
        @readObject_v4_encObj d (encRecs t ++ ls) n f
      rw [if_pos hv, hobj2]
      simp only [ok_bind, show (objOf d).id = ((d.oid : Nat) : Int) from rfl]
      have hfreshd : ∀ p ∈ db.objects, p.1 ≠ ((d.oid : Nat) : Int) :=
        hfresh (d.oid : Int) (by simp [nonRecycledIds])
      have hset : dictSetInt db.objects ((d.oid : Nat) : Int) (objOf d) =
          db.objects ++ [((d.oid : Int), objOf d)] := dictSetInt_fresh hfreshd
      rw [hset]
      have hpair2 : (nonRecycledIds t).Pairwise (· ≠ ·) := by
        simp only [nonRecycledIds, List.pairwise_cons] at hpair
        exact hpair.2
      have hfresh2 : ∀ i ∈ nonRecycledIds t,
          ∀ p ∈ db.objects ++ [((d.oid : Int), objOf d)], p.1 ≠ i := by
        intro i hi p hp
        rw [List.mem_append] at hp
        rcases hp with hp | hp
        · exact hfresh i (by simp [nonRecycledIds, hi]) p hp
        · rw [List.mem_singleton] at hp
          subst hp
          simp only [nonRecycledIds, List.pairwise_cons] at hpair
          exact hpair.1 i hi
      obtain ⟨m, hm⟩ := ih { db with objects := db.objects ++ [((d.oid : Int), objOf d)] }
        ls m2 f hv hfresh2 hpair2
      refine ⟨m, ?_⟩
      rw [hm]
      simp [expectedObjs, List.append_assoc]

/-- C7: for a v4 decode whose total-objects count is N covering a
record sequence with K recycled placeholders (and pairwise distinct
non-recycled ids), `readObjects` succeeds, the resulting objects
mapping holds exactly the N−K non-recycled entries under their ids,
and the cursor has advanced past all N records — including the
recycled placeholders' single lines — onto the remaining input. -/
theorem C7_recycled_objects (recs : List V4Rec) (db : MooDatabase)
    (ls : List String) (n f : Nat)
    (hpair : (nonRecycledIds recs).Pairwise (· ≠ ·)) :
    ∃ m : Nat,
      readObjects (f + 1) { db with version := 4, total_objects := (recs.length : Int) }
          ⟨encRecs recs ++ ls, n⟩ =
        .ok ({ db with version := 4, total_objects := (recs.length : Int), objects := expectedObjs recs }, ⟨ls, m⟩) ∧
      (expectedObjs recs).length = recs.length - recycledCount recs ∧
      (expectedObjs recs).map Prod.fst = nonRecycledIds recs := by
  obtain ⟨m, hm⟩ := objLoop_encRecs recs
    { db with version := 4, total_objects := (recs.length : Int), objects := [] }
    ls n f rfl (by intro i _ p hp; simp at hp) hpair
  refine ⟨m, ?_, expectedObjs_length recs, expectedObjs_keys recs⟩
  unfold readObjects
  simp only [Int.toNat_natCast]
  rw [hm]
  simp

/-- Concrete record sequence for the C7 witness: one real object (id
7, one verb, one named property) followed by one recycled placeholder,
so N = 2 and K = 1. -/
def c7recs : List V4Rec :=
  [V4Rec.obj ⟨7, "thing", 3, 2, 1, 0, 0, 1, 0, 0, [⟨"look", 2, 5, 0⟩], ["name"],
    [⟨42, 2, 5⟩]⟩, V4Rec.recycled 8]

/-- Witness for `C7_recycled_objects` at `c7recs`: the decode yields a
single-entry object map and consumes both records. -/
theorem C7_recycled_objects_witness :
    ∃ m : Nat,
      readObjects (0 + 1) { ({} : MooDatabase) with version := 4, total_objects := (c7recs.length : Int) }
          ⟨encRecs c7recs ++ [], 0⟩ =
        .ok ({ ({} : MooDatabase) with version := 4, total_objects := (c7recs.length : Int), objects := expectedObjs c7recs }, ⟨[], m⟩) ∧
      (expectedObjs c7recs).length = c7recs.length - recycledCount c7recs ∧
      (expectedObjs c7recs).map Prod.fst = nonRecycledIds c7recs :=
  C7_recycled_objects c7recs {} [] 0 0 (by simp [c7recs, nonRecycledIds])

lemma expectedProps_names : ∀ (defs : List V4PropDef) (names : List String),
    names.length ≤ defs.length →
    (expectedProps names defs).map Property.name =
      names.map some ++ List.replicate (defs.length - names.length) Option.none := by
  intro defs
  induction defs with
  | nil =>
    intro names h
    have : names = [] := by
      cases names with
      | nil => rfl
      | cons a t => simp at h
    subst this
    rfl
  | cons d t ih =>
    intro names h
    cases names with
    | nil =>
      simp only [expectedProps, List.map_cons, List.map_nil, List.nil_append,
        List.head?_nil, List.tail_nil, List.length_nil, List.length_cons, Nat.sub_zero]
      rw [ih [] (by exact Nat.zero_le _)]
      simp [List.replicate_succ]
    | cons nm nt =>
      simp only [expectedProps, List.map_cons, List.head?_cons, List.tail_cons,
        List.length_cons]
      rw [ih nt (by simpa using h)]
      simp only [List.cons_append, Nat.succ_sub_succ]

lemma expectedProps_fields : ∀ (defs : List V4PropDef) (names : List String),
    (expectedProps names defs).map (fun p => (p.value, p.owner, p.perms)) =
      defs.map (fun d => (PyValue.int d.value, d.owner, d.perms)) := by
  intro defs
  induction defs with
  | nil => intro names; rfl
  | cons d t ih => intro names; simp [expectedProps, ih]

/-- C8: for a property section with M declared names and D > M
definitions, the decode appends D properties: the first M carry the
declared names in order, the remaining D−M carry no name, and each
definition's value, owner reference and permission bits are decoded in
that fixed order into the corresponding property. -/
theorem C8_property_name_exhaustion (names : List String) (defs : List V4PropDef)
    (obj : MooObject) (ls : List String) (n f : Nat)
    (hd : names.length < defs.length) :
    readProperties (f + 1) obj ⟨encProps names defs ++ ls, n⟩ =
      .ok ({ obj with properties := obj.properties ++ expectedProps names defs },
        ⟨ls, n + 2 + names.length + 4 * defs.length⟩) ∧
    (expectedProps names defs).map Property.name =
      names.map some ++ List.replicate (defs.length - names.length) Option.none ∧
    (expectedProps names defs).map (fun p => (p.value, p.owner, p.perms)) =
      defs.map (fun d => (PyValue.int d.value, d.owner, d.perms)) :=
  ⟨readProperties_encoded names defs obj ls n f,
    expectedProps_names defs names (by omega),
    expectedProps_fields defs names⟩

/-- Concrete object, name list and definition list for the C8
witness: one declared name, two definitions. -/
def c8obj : MooObject :=
  { id := 0, name := "o", flags := 0, owner := 0, location := .int 0, parent := .int 0 }

/-- One declared property name for the C8 witness. -/
def c8names : List String := ["alpha"]

/-- Two property definitions for the C8 witness. -/
def c8defs : List V4PropDef := [⟨1, 2, 3⟩, ⟨4, 5, 6⟩]

/-- Witness for `C8_property_name_exhaustion` at one name and two
definitions: the first decoded property is named `alpha`, the second
is unnamed. -/
theorem C8_property_name_exhaustion_witness :
    readProperties (0 + 1) c8obj ⟨encProps c8names c8defs ++ [], 0⟩ =
      .ok ({ c8obj with properties := c8obj.properties ++ expectedProps c8names c8defs },
        ⟨[], 0 + 2 + c8names.length + 4 * c8defs.length⟩) ∧
    (expectedProps c8names c8defs).map Property.name =
      c8names.map some ++ List.replicate (c8defs.length - c8names.length) Option.none ∧
    (expectedProps c8names c8defs).map (fun p => (p.value, p.owner, p.perms)) =
      c8defs.map (fun d => (PyValue.int d.value, d.owner, d.perms)) :=
  C8_property_name_exhaustion c8names c8defs c8obj [] 0 0 (by decide)

/-- C9: `readBool` returns true for every non-empty line and false for
an empty one; in particular the literal line `0` decodes to true. -/
theorem C9_readBool_nonempty :
    (∀ (s : String) (ls : List String) (n : Nat),
      readBool ⟨s :: ls, n⟩ = ((s != ""), ⟨ls, n + 1⟩)) ∧
    readBool ⟨["0"], 0⟩ = (true, ⟨[], 1⟩) ∧
    readBool ⟨[""], 0⟩ = (false, ⟨[], 1⟩) :=
  ⟨fun _ _ _ => rfl, rfl, rfl⟩

end LMDb
